import Mathlib

/-!
# ECLC front end: tokenizer, parser and AST printer

A shallow embedding of `src/frontend/lexer.c` and `src/frontend/parser.c`
(with the declarations of `include/eclc/token.h` and `include/eclc/ast.h`).

Conventions of the embedding.

* A C `char` is a `Char`; the classification functions of `<ctype.h>` are
  those of the "C" locale (the program never calls `setlocale`), so only
  7-bit characters are spaces, letters or digits.
* The source buffer handed to `tokenize` is the text followed by one NUL,
  as `read_file` builds it.  A read at an offset outside that buffer is
  undefined behaviour in C and is the outcome `fault` here.  So is the copy
  of a token text of `INT_MAX` characters: the size `length + 1` passed to
  `xmalloc` has wrapped, and `xmalloc` stops the program.
* The `int` counters `line` and `column` are `Int`, and every result of `int`
  arithmetic on them passes through `int32`, which reduces it modulo 2^32 into
  the range of an `int`.  The `int` offset `pos` is a `Nat`; an offset above
  `INT_MAX` has wrapped to a negative `int`, so a read at it is outside the
  buffer: `source_buffer` ends the list the tokenizer reads after index
  `INT_MAX`.  Theorems about texts of any length carry the hypothesis that
  the text is shorter than `INT_MAX` characters.
* `stderr` is the list of the messages written, one entry per `fprintf`
  call; `stdout` is the text written.
-/

namespace ECLC

/-! ## token.h -/

/-- The enumeration `TokenType`, in declaration order. -/
inductive TokenType
  | TOK_INTEGER | TOK_STRING | TOK_CHAR
  | TOK_INT | TOK_RETURN | TOK_INCLUDE
  | TOK_IDENTIFIER
  | TOK_ASSIGN | TOK_PLUS | TOK_MINUS | TOK_MULTIPLY | TOK_DIVIDE | TOK_MODULO
  | TOK_AMPERSAND | TOK_PIPE | TOK_CARET | TOK_TILDE | TOK_EXCLAMATION
  | TOK_QUESTION | TOK_COLON
  | TOK_EQ | TOK_NE | TOK_LT | TOK_LE | TOK_GT | TOK_GE
  | TOK_LBRACE | TOK_RBRACE | TOK_LPAREN | TOK_RPAREN | TOK_LBRACKET
  | TOK_RBRACKET | TOK_SEMICOLON | TOK_COMMA | TOK_DOT | TOK_ARROW
  | TOK_HASH
  | TOK_EOF | TOK_ERROR
  deriving DecidableEq, Repr

open TokenType

/-- A value of type `char*`: the null pointer, a pointer to a NUL-terminated
string, or a non-zero integer converted to a pointer. -/
inductive CharPtr
  | null
  | str (s : List Char)
  | ofInt (n : Int)
  deriving DecidableEq, Repr

/-- The struct `Token`. -/
structure Token where
  type : TokenType
  value : CharPtr
  line : Int
  column : Int
  deriving DecidableEq, Repr

/-- The struct `TokenStream`; `count` is the length of `tokens`. -/
structure TokenStream where
  tokens : List Token
  capacity : Nat
  current : Nat
  deriving DecidableEq, Repr

/-- The field `count` of a `TokenStream`. -/
def TokenStream.count (stream : TokenStream) : Nat := stream.tokens.length

/-! ## ctype.h and string.h, "C" locale -/

/-- The terminator of a C string. -/
def NUL : Char := Char.ofNat 0

/-- C `isspace`: space, `\t`, `\n`, `\v`, `\f`, `\r`. -/
def isspace (c : Char) : Bool :=
  c == ' ' || c == '\t' || c == '\n' || c == Char.ofNat 11 || c == Char.ofNat 12 || c == '\r'

/-- C `isdigit`. -/
def isdigit (c : Char) : Bool := decide ('0'.toNat ≤ c.toNat ∧ c.toNat ≤ '9'.toNat)

/-- C `isalpha`. -/
def isalpha (c : Char) : Bool :=
  decide (('a'.toNat ≤ c.toNat ∧ c.toNat ≤ 'z'.toNat) ∨ ('A'.toNat ≤ c.toNat ∧ c.toNat ≤ 'Z'.toNat))

/-- C `isalnum`. -/
def isalnum (c : Char) : Bool := isalpha c || isdigit c

/-- C `strcmp`: zero for equal strings, otherwise the difference of the first
two bytes that differ (a missing byte is the terminator, 0). -/
def strcmp : List Char → List Char → Int
  | [], [] => 0
  | [], b :: _ => - (b.toNat : Int)
  | a :: _, [] => (a.toNat : Int)
  | a :: as, b :: bs => if a = b then strcmp as bs else (a.toNat : Int) - (b.toNat : Int)

/-- Conversion of an `int` to `char*`, as the assignment in `create_token`
does: zero is the null pointer. -/
def intToCharPtr (n : Int) : CharPtr := if n = 0 then CharPtr.null else CharPtr.ofInt n

/-! ## The type `int` -/

/-- The largest value of an `int`, 2^31 - 1. -/
def INT_MAX : Nat := 2147483647

/-- The `int` that holds the result `x` of an arithmetic operation: `x` reduced
modulo 2^32 into the range from -2^31 to 2^31 - 1. -/
def int32 (x : Int) : Int := (x + 2147483648) % 4294967296 - 2147483648

/-! ## lexer.c -/

/-- The function `is_identifier_char`. -/
def is_identifier_char (c : Char) : Bool := isalnum c || c == '_'

/-- The function `create_token`: the text stored is `value ? strcmp(value,value) : NULL`. -/
def create_token (type : TokenType) (value : Option (List Char)) (line column : Int) : Token :=
  { type := type
    value := match value with
      | some v => intToCharPtr (strcmp v v)
      | none => CharPtr.null
    line := line
    column := column }

/-- The function `token_stream_add`: grow the storage when it is full, then append. -/
def token_stream_add (stream : TokenStream) (token : Token) : TokenStream :=
  { tokens := stream.tokens ++ [token]
    capacity := if stream.count ≥ stream.capacity then
        (if stream.capacity ≠ 0 then stream.capacity * 2 else 16)
      else stream.capacity
    current := stream.current }

/-- The local variables of `tokenize` together with what it has written to
`stderr`.  The `int` variables `line` and `column` are kept in the range of an
`int` by `int32`; the `int` offset `pos` is kept as a natural number, and the
buffer read through it ends after index `INT_MAX` (see `source_buffer`). -/
structure LexState where
  pos : Nat
  line : Int
  column : Int
  stream : TokenStream
  stderr : List String
  deriving DecidableEq, Repr

/-- Result of running a loop: a value, a run that C gives no result (`fault`:
a read outside the source buffer, or an allocation `xmalloc(length + 1)` whose
`int` size has wrapped, on which `xmalloc` stops the program), or the
iteration bound of the model reached (`outOfFuel`). -/
inductive Outcome (α : Type)
  | ok (a : α)
  | fault
  | outOfFuel
  deriving DecidableEq, Repr

/-- The call `strncpy(value, source + start, length)` followed by the terminator:
the `length` characters from offset `start`, cut at the first NUL. -/
def substr (buf : List Char) (start length : Nat) : List Char :=
  ((buf.drop start).take length).takeWhile (fun c => c != NUL)

/-- The scanning loop of a string literal, on the buffer from offset `pos`:
`while (source[pos] != '"' && source[pos] != '\0')`. -/
def string_loop : List Char → Nat → Int → Int → Option (Nat × Int × Int)
  | [], _, _, _ => none
  | c :: rest, pos, line, column =>
    if c != '"' && c != NUL then
      if c == '\n' then string_loop rest (pos + 1) (int32 (line + 1)) 1
      else string_loop rest (pos + 1) line (int32 (column + 1))
    else some (pos, line, column)

/-- The scanning loop of a block comment, on the buffer from offset `pos`:
`while (!(source[pos] == '*' && source[pos + 1] == '/') && source[pos] != '\0')`. -/
def block_comment_loop : List Char → Nat → Int → Int → Option (Nat × Int × Int)
  | [], _, _, _ => none
  | c :: rest, pos, line, column =>
    if c == '*' then
      match rest with
      | [] => none
      | d :: _ =>
        if d == '/' then some (pos, line, column)
        else block_comment_loop rest (pos + 1) line (int32 (column + 1))
    else if c != NUL then
      if c == '\n' then block_comment_loop rest (pos + 1) (int32 (line + 1)) 1
      else block_comment_loop rest (pos + 1) line (int32 (column + 1))
    else some (pos, line, column)

/-- The scanning loop of a line comment:
`while (source[pos] != '\n' && source[pos] != '\0')`. -/
def line_comment_loop : List Char → Nat → Int → Option (Nat × Int)
  | [], _, _ => none
  | c :: rest, pos, column =>
    if c != '\n' && c != NUL then line_comment_loop rest (pos + 1) (int32 (column + 1))
    else some (pos, column)

/-- The scanning loop of an integer: `while (isdigit(source[pos]))`. -/
def digit_loop : List Char → Nat → Int → Option (Nat × Int)
  | [], _, _ => none
  | c :: rest, pos, column =>
    if isdigit c then digit_loop rest (pos + 1) (int32 (column + 1))
    else some (pos, column)

/-- The scanning loop of a word: `while (is_identifier_char(source[pos]))`. -/
def identifier_loop : List Char → Nat → Int → Option (Nat × Int)
  | [], _, _ => none
  | c :: rest, pos, column =>
    if is_identifier_char c then identifier_loop rest (pos + 1) (int32 (column + 1))
    else some (pos, column)

/-- The test `c == a && source[pos + 1] == b` of the comment and operator
branches; the second character is read only when the first test holds. -/
def two_chars (buf : List Char) (pos : Nat) (c a b : Char) : Option Bool :=
  if c == a then (buf[pos + 1]?).map (fun d => d == b) else some false

/-- The whitespace branch. -/
def lex_space (c : Char) (st : LexState) : LexState :=
  if c == '\n' then { st with line := int32 (st.line + 1), column := 1, pos := st.pos + 1 }
  else { st with column := int32 (st.column + 1), pos := st.pos + 1 }

/-- The string literal branch.  The text is copied into `xmalloc(length + 1)`
with `int length`: for a length of `INT_MAX` the size wraps to a negative
`int`, no allocation of that size succeeds and `xmalloc` stops the program. -/
def lex_string (buf : List Char) (st : LexState) : Option LexState :=
  let start := st.pos
  match string_loop (buf.drop (st.pos + 1)) (st.pos + 1) st.line (int32 (st.column + 1)) with
  | none => none
  | some (pos, line, column) =>
    match buf[pos]? with
    | none => none
    | some d =>
      let pos1 := if d == '"' then pos + 1 else pos
      let column1 := if d == '"' then int32 (column + 1) else column
      let length : Nat := pos1 - start
      if INT_MAX < length + 1 then none
      else
        let value := substr buf start length
        some { st with
          pos := pos1, line := line, column := column1
          stream := token_stream_add st.stream
            (create_token TOK_STRING (some value) line (int32 (column1 - (length : Int)))) }

/-- The character literal branch.  Its text has at most four characters, so
the size `length + 1` passed to `xmalloc` stays in the range of an `int`. -/
def lex_char (buf : List Char) (st : LexState) : Option LexState :=
  let start := st.pos
  match buf[st.pos + 1]? with
  | none => none
  | some e =>
    let pos1 := if e == '\\' then st.pos + 1 + 2 else st.pos + 1 + 1
    let column1 := if e == '\\' then int32 (int32 (st.column + 1) + 2)
      else int32 (int32 (st.column + 1) + 1)
    match buf[pos1]? with
    | none => none
    | some d =>
      let pos2 := if d == '\'' then pos1 + 1 else pos1
      let column2 := if d == '\'' then int32 (column1 + 1) else column1
      let length : Nat := pos2 - start
      let value := substr buf start length
      some { st with
        pos := pos2, column := column2
        stream := token_stream_add st.stream
          (create_token TOK_CHAR (some value) st.line (int32 (column2 - (length : Int)))) }

/-- The block comment branch. -/
def lex_block_comment (buf : List Char) (st : LexState) : Option LexState :=
  match block_comment_loop (buf.drop (st.pos + 2)) (st.pos + 2) st.line
      (int32 (st.column + 2)) with
  | none => none
  | some (pos, line, column) =>
    match buf[pos]? with
    | none => none
    | some d =>
      if d == '*' then
        some { st with pos := pos + 2, line := line, column := int32 (column + 2) }
      else some { st with pos := pos, line := line, column := column }

/-- The line comment branch. -/
def lex_line_comment (buf : List Char) (st : LexState) : Option LexState :=
  match line_comment_loop (buf.drop st.pos) st.pos st.column with
  | none => none
  | some (pos, column) => some { st with pos := pos, column := column }

/-- The integer branch, with the same `xmalloc(length + 1)` as `lex_string`. -/
def lex_integer (buf : List Char) (st : LexState) : Option LexState :=
  let start := st.pos
  match digit_loop (buf.drop st.pos) st.pos st.column with
  | none => none
  | some (pos, column) =>
    let length : Nat := pos - start
    if INT_MAX < length + 1 then none
    else
      let value := substr buf start length
      some { st with
        pos := pos, column := column
        stream := token_stream_add st.stream
          (create_token TOK_INTEGER (some value) st.line (int32 (column - (length : Int)))) }

/-- The keyword check of the identifier branch. -/
def keyword_type (value : List Char) : TokenType :=
  if strcmp value "int".toList = 0 then TOK_INT
  else if strcmp value "return".toList = 0 then TOK_RETURN
  else TOK_IDENTIFIER

/-- The identifier and keyword branch, with the same `xmalloc(length + 1)` as
`lex_string`. -/
def lex_word (buf : List Char) (st : LexState) : Option LexState :=
  let start := st.pos
  match identifier_loop (buf.drop st.pos) st.pos st.column with
  | none => none
  | some (pos, column) =>
    let length : Nat := pos - start
    if INT_MAX < length + 1 then none
    else
      let value := substr buf start length
      some { st with
        pos := pos, column := column
        stream := token_stream_add st.stream
          (create_token (keyword_type value) (some value) st.line
            (int32 (column - (length : Int)))) }

/-- A two-character operator branch: one token, two characters consumed. -/
def lex_operator (type : TokenType) (text : String) (st : LexState) : LexState :=
  { st with
    stream := token_stream_add st.stream (create_token type (some text.toList) st.line st.column)
    pos := st.pos + 2, column := int32 (st.column + 2) }

/-- The `case` labels of the `switch` of the single-character branch, each
with the kind it assigns. -/
def single_char_cases : List (Char × TokenType) :=
  [('{', TOK_LBRACE), ('}', TOK_RBRACE), ('(', TOK_LPAREN), (')', TOK_RPAREN),
   ('[', TOK_LBRACKET), (']', TOK_RBRACKET), (';', TOK_SEMICOLON), (',', TOK_COMMA),
   ('.', TOK_DOT), ('=', TOK_ASSIGN), ('+', TOK_PLUS), ('-', TOK_MINUS),
   ('*', TOK_MULTIPLY), ('/', TOK_DIVIDE), ('%', TOK_MODULO), ('&', TOK_AMPERSAND),
   ('|', TOK_PIPE), ('^', TOK_CARET), ('~', TOK_TILDE), ('!', TOK_EXCLAMATION),
   ('?', TOK_QUESTION), (':', TOK_COLON), ('<', TOK_LT), ('>', TOK_GT), ('#', TOK_HASH)]

/-- The `switch` of the single-character branch; `TOK_ERROR` is its
`default` case. -/
def single_char_type (c : Char) : TokenType :=
  (single_char_cases.lookup c).getD TOK_ERROR

/-- The diagnostic of the `default` case. -/
def unknown_character_message (c : Char) (line column : Int) : String :=
  "Error: Unknown character '" ++ String.singleton c ++ "' at line " ++ toString line
    ++ ", column " ++ toString column ++ "\n"

/-- The single-character branch, the diagnostic of its `default` case
included. -/
def lex_single (c : Char) (st : LexState) : LexState :=
  let type := single_char_type c
  let stderr := if type = TOK_ERROR then
      st.stderr ++ [unknown_character_message c st.line st.column]
    else st.stderr
  let stream := if type ≠ TOK_ERROR then
      token_stream_add st.stream (create_token type (some [c]) st.line st.column)
    else st.stream
  { st with
    stream := stream, stderr := stderr, pos := st.pos + 1, column := int32 (st.column + 1) }

/-- One pass through the body of the `while` loop of `tokenize`, entered with
`c = source[pos]`; `none` is a read outside the buffer. -/
def tokenize_body (buf : List Char) (c : Char) (st : LexState) : Option LexState :=
  if isspace c then some (lex_space c st)
  else if c == '"' then lex_string buf st
  else if c == '\'' then lex_char buf st
  else
    (two_chars buf st.pos c '/' '*').bind fun block =>
    if block then lex_block_comment buf st else
    (two_chars buf st.pos c '/' '/').bind fun line =>
    if line then lex_line_comment buf st else
    if isdigit c then lex_integer buf st else
    if isalpha c || c == '_' then lex_word buf st else
    (two_chars buf st.pos c '=' '=').bind fun eq =>
    if eq then some (lex_operator TOK_EQ "==" st) else
    (two_chars buf st.pos c '!' '=').bind fun ne =>
    if ne then some (lex_operator TOK_NE "!=" st) else
    (two_chars buf st.pos c '<' '=').bind fun le =>
    if le then some (lex_operator TOK_LE "<=" st) else
    (two_chars buf st.pos c '>' '=').bind fun ge =>
    if ge then some (lex_operator TOK_GE ">=" st) else
    (two_chars buf st.pos c '-' '>').bind fun arrow =>
    if arrow then some (lex_operator TOK_ARROW "->" st) else
    some (lex_single c st)

/-- The `while (source[pos] != '\0')` loop of `tokenize`, run for at most
`fuel` iterations. -/
def tokenize_loop (buf : List Char) : Nat → LexState → Outcome LexState
  | 0, _ => Outcome.outOfFuel
  | fuel + 1, st =>
    match buf[st.pos]? with
    | none => Outcome.fault
    | some c =>
      if c != NUL then
        match tokenize_body buf c st with
        | none => Outcome.fault
        | some st1 => tokenize_loop buf fuel st1
      else Outcome.ok st

/-- The state in which `tokenize` enters its loop: offset 0, line 1, column 1,
a zeroed stream. -/
def lex_init : LexState :=
  { pos := 0, line := 1, column := 1, stream := { tokens := [], capacity := 0, current := 0 },
    stderr := [] }

/-- The buffer as `tokenize` can read it through its `int` offset: the text
followed by its NUL, up to index `INT_MAX`.  Once the offset has been
incremented past `INT_MAX` it holds a negative value, and the read at it is
before the buffer: here it is a read past the end of this list, the outcome
`fault`.  For a text of at most `INT_MAX` characters this is the whole buffer
`source ++ [NUL]`. -/
def source_buffer (source : List Char) : List Char :=
  (source ++ [NUL]).take (INT_MAX + 1)

/-- The function `tokenize`: scan the buffer, then append the `TOK_EOF`
token.  The field `stream` of the result is the stream returned; every
iteration consumes a character, so one more iteration than the text has
characters is the bound of the loop. -/
def tokenize (source : List Char) : Outcome LexState :=
  match tokenize_loop (source_buffer source) (source.length + 1) lex_init with
  | Outcome.ok st =>
    Outcome.ok { st with
      stream := token_stream_add st.stream (create_token TOK_EOF none st.line st.column) }
  | Outcome.fault => Outcome.fault
  | Outcome.outOfFuel => Outcome.outOfFuel

/-- The kinds of the tokens of a stream, in order. -/
def kinds (stream : TokenStream) : List TokenType := stream.tokens.map (fun t => t.type)

end ECLC

namespace ECLC
open TokenType

/-! ## ast.h -/

/-- The enumeration `NodeType`, in declaration order. -/
inductive NodeType
  | NODE_PROGRAM | NODE_FUNCTION_DEF | NODE_VARIABLE_DECL | NODE_RETURN_STMT
  | NODE_INTEGER_LITERAL | NODE_BINARY_OP | NODE_IDENTIFIER
  deriving DecidableEq, Repr

open NodeType

/-- A value of type `ASTNode*`: the null pointer, or a pointer to a node
with its kind, its token and its two child pointers. -/
inductive ASTNode
  | null
  | node (type : NodeType) (token : Token) (left right : ASTNode)
  deriving DecidableEq, Repr

/-- The struct `Parser`.  The stream pointer of a parser is never null here:
the parser holds the stream it was created over.  `stderr` is what has been
written to the diagnostic stream through this parser. -/
structure Parser where
  tokens : TokenStream
  current_pos : Nat
  root : ASTNode
  filename : Option String
  stderr : List String
  deriving DecidableEq, Repr

/-! ## parser.c -/

/-- The function `create_node`: a zeroed node with its kind and token set. -/
def create_node (type : NodeType) (token : Token) : ASTNode :=
  ASTNode.node type token ASTNode.null ASTNode.null

/-- The assignment `node->left = child`. -/
def set_left (node child : ASTNode) : ASTNode :=
  match node with
  | ASTNode.null => ASTNode.null
  | ASTNode.node type token _ right => ASTNode.node type token child right

/-- The function `current_token`. -/
def current_token (parser : Parser) : Option Token :=
  if parser.current_pos ≥ parser.tokens.count then none
  else parser.tokens.tokens[parser.current_pos]?

/-- The function `advance`. -/
def advance (parser : Parser) : Parser :=
  if parser.current_pos < parser.tokens.count then
    { parser with current_pos := parser.current_pos + 1 }
  else parser

/-- The function `match` of parser.c. -/
def match_token (parser : Parser) (type : TokenType) : Bool :=
  match current_token parser with
  | none => false
  | some token => token.type == type

/-- The function `consume`. -/
def consume (parser : Parser) (type : TokenType) : Bool × Parser :=
  if match_token parser type then (true, advance parser) else (false, parser)

/-- The function `parse_integer`. -/
def parse_integer (parser : Parser) : ASTNode × Parser :=
  match current_token parser with
  | none => (ASTNode.null, parser)
  | some token =>
    if token.type ≠ TOK_INTEGER then (ASTNode.null, parser)
    else (create_node NODE_INTEGER_LITERAL token, advance parser)

/-- The function `parse_identifier`. -/
def parse_identifier (parser : Parser) : ASTNode × Parser :=
  match current_token parser with
  | none => (ASTNode.null, parser)
  | some token =>
    if token.type ≠ TOK_IDENTIFIER then (ASTNode.null, parser)
    else (create_node NODE_IDENTIFIER token, advance parser)

/-- The zeroed token `{0}` of `parse_program`. -/
def dummy_token : Token :=
  { type := TOK_INTEGER, value := CharPtr.null, line := 0, column := 0 }

/-- Write one message to the diagnostic stream. -/
def report (parser : Parser) (message : String) : Parser :=
  { parser with stderr := parser.stderr ++ [message] }

/-- The function `parse_return_stmt`.  The token read at `current_pos - 1` is the one the
successful `consume` has just passed, so the index is inside the stream. -/
def parse_return_stmt (parser : Parser) : ASTNode × Parser :=
  let found := consume parser TOK_RETURN
  if !found.1 then (ASTNode.null, found.2)
  else
    let return_token := (found.2.tokens.tokens[found.2.current_pos - 1]?).getD dummy_token
    let node := create_node NODE_RETURN_STMT return_token
    let value := parse_integer found.2
    let node := set_left node value.1
    let semicolon := consume value.2 TOK_SEMICOLON
    if !semicolon.1 then
      (ASTNode.null, report semicolon.2 "Error: Expected ';' after return statement\n")
    else (node, semicolon.2)

/-- The function `parse_block`. -/
def parse_block (parser : Parser) : ASTNode × Parser :=
  let found := consume parser TOK_LBRACE
  if !found.1 then (ASTNode.null, found.2)
  else
    let stmt := parse_return_stmt found.2
    let closed := consume stmt.2 TOK_RBRACE
    if !closed.1 then (ASTNode.null, report closed.2 "Error: Expected '\x7d' to close block\n")
    else (stmt.1, closed.2)

/-- The function `parse_function`. -/
def parse_function (parser : Parser) : ASTNode × Parser :=
  let found := consume parser TOK_INT
  if !found.1 then (ASTNode.null, found.2)
  else
    match current_token found.2 with
    | none => (ASTNode.null, report found.2 "Error: Expected function name\n")
    | some name_token =>
      if name_token.type ≠ TOK_IDENTIFIER then
        (ASTNode.null, report found.2 "Error: Expected function name\n")
      else
        let node := create_node NODE_FUNCTION_DEF name_token
        let lparen := consume (advance found.2) TOK_LPAREN
        if !lparen.1 then
          (ASTNode.null, report lparen.2 "Error: Expected '(' after function name\n")
        else
          let rparen := consume lparen.2 TOK_RPAREN
          if !rparen.1 then
            (ASTNode.null, report rparen.2 "Error: Expected ')' after parameters\n")
          else
            let body := parse_block rparen.2
            (set_left node body.1, body.2)

/-- The function `parse_program`. -/
def parse_program (parser : Parser) : ASTNode × Parser :=
  let program := create_node NODE_PROGRAM dummy_token
  let function := parse_function parser
  (set_left program function.1, function.2)

/-- The function `parser_create`. -/
def parser_create (tokens : TokenStream) (filename : Option String) : Parser :=
  { tokens := tokens, current_pos := 0, root := ASTNode.null, filename := filename, stderr := [] }

/-- The function `parser_parse`: the root returned and the parser afterwards.  Of the
guard `!parser || !parser->tokens` the first half is the case `none`; the
second cannot arise, a `Parser` holding its stream. -/
def parser_parse (parser : Option Parser) : ASTNode × Option Parser :=
  match parser with
  | none => (ASTNode.null, none)
  | some p =>
    let program := parse_program p
    (program.1, some { program.2 with root := program.1 })

/-- What `printf` writes for `%s`: the string, and `(null)` for the null
pointer as the GNU C library does (the C standard leaves that case
undefined).  A pointer made from an integer is never printed by this
program. -/
def print_string (p : CharPtr) : String :=
  match p with
  | CharPtr.null => "(null)"
  | CharPtr.str s => String.mk s
  | CharPtr.ofInt _ => ""

/-- The loop `for (int i = 0; i < indent; i++) printf("  ")`. -/
def print_indent (indent : Int) : String :=
  String.mk (List.replicate (2 * indent.toNat) ' ')

/-- The `switch` of `ast_print`: the line of one node. -/
def node_line (type : NodeType) (token : Token) : String :=
  match type with
  | NODE_PROGRAM => "Program\n"
  | NODE_FUNCTION_DEF => "Function: " ++ print_string token.value ++ "\n"
  | NODE_RETURN_STMT => "Return\n"
  | NODE_INTEGER_LITERAL => "Integer: " ++ print_string token.value ++ "\n"
  | NODE_IDENTIFIER => "Identifier: " ++ print_string token.value ++ "\n"
  | _ => "Unknown node\n"

/-- The function `ast_print`: the text written to `stdout`.  The children are
printed at the `int` value of `indent + 1`. -/
def ast_print : ASTNode → Int → String
  | ASTNode.null, _ => ""
  | ASTNode.node type token left right, indent =>
    print_indent indent ++ node_line type token
      ++ ast_print left (int32 (indent + 1)) ++ ast_print right (int32 (indent + 1))

/-- The left child of a node; null for the null pointer. -/
def ASTNode.left : ASTNode → ASTNode
  | ASTNode.null => ASTNode.null
  | ASTNode.node _ _ l _ => l

/-- The right child of a node; null for the null pointer. -/
def ASTNode.right : ASTNode → ASTNode
  | ASTNode.null => ASTNode.null
  | ASTNode.node _ _ _ r => r

/-- The kind of a node, when the pointer is not null. -/
def ASTNode.type? : ASTNode → Option NodeType
  | ASTNode.null => none
  | ASTNode.node t _ _ _ => some t

/-- The token of a node, when the pointer is not null. -/
def ASTNode.token? : ASTNode → Option Token
  | ASTNode.null => none
  | ASTNode.node _ t _ _ => some t

/-- The tree `parser_parse` returns for a parser created over `ts`. -/
def parse_tree (ts : TokenStream) (filename : Option String) : ASTNode :=
  (parser_parse (some (parser_create ts filename))).1

/-- The driver's pipeline on a text: tokenize, create a parser, parse. -/
def parse_source (source : List Char) (filename : Option String) : Outcome ASTNode :=
  match tokenize source with
  | Outcome.ok st => Outcome.ok (parse_tree st.stream filename)
  | Outcome.fault => Outcome.fault
  | Outcome.outOfFuel => Outcome.outOfFuel

/-- The function `token_stream_next`: the token returned (none for `NULL`)
and the stream afterwards. -/
def token_stream_next (stream : TokenStream) : Option Token × TokenStream :=
  if stream.current ≥ stream.count then (none, stream)
  else (stream.tokens[stream.current]?, { stream with current := stream.current + 1 })

/-- The function `token_stream_peek`. -/
def token_stream_peek (stream : TokenStream) : Option Token :=
  if stream.current ≥ stream.count then none
  else stream.tokens[stream.current]?

/-! ## main.c -/

/-- What a call of the driver has done: the status it returns and what it wrote
to `stdout` and `stderr`. -/
structure Run where
  status : Int
  stdout : String
  stderr : List String
  deriving DecidableEq, Repr

/-- The diagnostics `parser_parse` leaves behind, for a parser created over
`ts`. -/
def parse_stderr (ts : TokenStream) (filename : Option String) : List String :=
  match (parser_parse (some (parser_create ts filename))).2 with
  | some p => p.stderr
  | none => []

/-- The function `compile_file_quiet`.  `content` is what `read_file` returns
for the file: its text, or nothing when the file cannot be opened.  The pointer
`tokenize` returns is never null, so the test `!tokens` never holds. -/
def compile_file_quiet (filename : String) (content : Option (List Char)) : Outcome Run :=
  match content with
  | none =>
    Outcome.ok { status := 1, stdout := "",
                 stderr := ["Error: Cannot open file '" ++ filename ++ "'\n"] }
  | some source =>
    match tokenize source with
    | Outcome.fault => Outcome.fault
    | Outcome.outOfFuel => Outcome.outOfFuel
    | Outcome.ok st =>
      let ast := parse_tree st.stream (some filename)
      let stderr := st.stderr ++ parse_stderr st.stream (some filename)
      match ast with
      | ASTNode.null => Outcome.ok { status := 1, stdout := "", stderr := stderr }
      | ASTNode.node _ _ _ _ => Outcome.ok { status := 0, stdout := "", stderr := stderr }

/-- The function `compile_file`, under the same conventions. -/
def compile_file (filename : String) (content : Option (List Char)) : Outcome Run :=
  let banner := "Compiling: " ++ filename ++ "\n"
  match content with
  | none =>
    Outcome.ok { status := 1, stdout := banner,
                 stderr := ["Error: Cannot open file '" ++ filename ++ "'\n"] }
  | some source =>
    match tokenize source with
    | Outcome.fault => Outcome.fault
    | Outcome.outOfFuel => Outcome.outOfFuel
    | Outcome.ok st =>
      let ast := parse_tree st.stream (some filename)
      let stderr := st.stderr ++ parse_stderr st.stream (some filename)
      match ast with
      | ASTNode.null =>
        Outcome.ok { status := 1, stdout := banner,
                     stderr := stderr ++ ["Error: Parsing failed for " ++ filename ++ "\n"] }
      | ASTNode.node _ _ _ _ =>
        Outcome.ok { status := 0,
                     stdout := banner ++ "AST for " ++ filename ++ ":\n" ++ ast_print ast 0 ++ "\n",
                     stderr := stderr }

/-! ## Notions used to state the properties -/

/-- What one pass of the loop body may do to the stream: nothing, or append
one token that is not `TOK_EOF`. -/
def StreamStep (s s1 : TokenStream) : Prop :=
  s1 = s ∨ ∃ ty v l col, ty ≠ TOK_EOF ∧ s1 = token_stream_add s (create_token ty (some v) l col)

/-- Tokens that `tokenize` produces before the end marker. -/
def BodyTokens (s : TokenStream) : Prop :=
  ∀ t ∈ s.tokens, t.type ≠ TOK_EOF ∧ t.value = CharPtr.null

/-- The text a token stores, as a string: empty when the pointer is null or
points to no string. -/
def token_text (t : Token) : List Char :=
  match t.value with
  | CharPtr.str s => s
  | _ => []

/-- The texts of the tokens of a stream, concatenated in order. -/
def lexemes (stream : TokenStream) : List Char :=
  (stream.tokens.map token_text).flatten

/-- Apply a function to the value of an outcome. -/
def Outcome.map {α β : Type} (f : α → β) : Outcome α → Outcome β
  | Outcome.ok a => Outcome.ok (f a)
  | Outcome.fault => Outcome.fault
  | Outcome.outOfFuel => Outcome.outOfFuel

/-- The kind of the token `i` places after the parser's cursor, when there is
one. -/
def kind_at (p : Parser) (i : Nat) : Option TokenType :=
  (p.tokens.tokens[p.current_pos + i]?).map (fun t => t.type)

/-- A run of `k` successive calls of `token_stream_next`: the tokens returned,
in order, and the stream afterwards. -/
def next_calls : Nat → TokenStream → List (Option Token) × TokenStream
  | 0, s => ([], s)
  | k + 1, s =>
    ((token_stream_next s).1 :: (next_calls k (token_stream_next s).2).1,
      (next_calls k (token_stream_next s).2).2)

/-- The nodes of a tree in pre-order, the left subtree before the right one,
each with its depth, the root being at depth `d`. -/
def preorder : ASTNode → Nat → List (Nat × NodeType × Token)
  | ASTNode.null, _ => []
  | ASTNode.node type token left right, d =>
    (d, type, token) :: (preorder left (d + 1) ++ preorder right (d + 1))

/-- The label `ast_print` writes for a node kind. -/
def kind_label : NodeType → String
  | NODE_PROGRAM => "Program"
  | NODE_FUNCTION_DEF => "Function: "
  | NODE_RETURN_STMT => "Return"
  | NODE_INTEGER_LITERAL => "Integer: "
  | NODE_IDENTIFIER => "Identifier: "
  | _ => "Unknown node"

/-- The payload `ast_print` writes after the label: the token text for a
function, an integer literal and an identifier, nothing for the other kinds. -/
def node_payload (type : NodeType) (token : Token) : String :=
  match type with
  | NODE_FUNCTION_DEF => print_string token.value
  | NODE_INTEGER_LITERAL => print_string token.value
  | NODE_IDENTIFIER => print_string token.value
  | _ => ""

/-- The texts of a list, written one after the other. -/
def concat_text (l : List String) : String := l.foldr (fun a b => a ++ b) ""

/-- The number of newline characters of a text. -/
def newline_count (s : String) : Nat := s.data.count '\n'

/-- What one node at depth `d` writes when the root is printed with indent `k`. -/
def node_record (k : Nat) (n : Nat × NodeType × Token) : String :=
  String.mk (List.replicate (2 * (k + n.1)) ' ') ++ kind_label n.2.1 ++ node_payload n.2.1 n.2.2
    ++ "\n"

/-- The line of the character at `offset` of a text, as the specification
counts it: 1 plus the number of newline characters before it. -/
def line_at (source : List Char) (offset : Nat) : Int :=
  1 + (((source.take offset).count '\n' : Nat) : Int)

/-- The column of the character at `offset` of a text, as the specification counts
it: 1 plus the number of characters between the preceding newline (or the start
of the text) and it. -/
def column_at (source : List Char) (offset : Nat) : Int :=
  1 + ((((source.take offset).reverse.takeWhile (fun c => c != '\n')).length : Nat) : Int)

/-- What a step of the parser may do to its cursor: the stream stays the same,
the position does not decrease, and a position that is at most the count stays
so. -/
def CursorStep (p q : Parser) : Prop :=
  q.tokens = p.tokens ∧ p.current_pos ≤ q.current_pos ∧
    (p.current_pos ≤ p.tokens.count → q.current_pos ≤ q.tokens.count)

/-- A tree with token texts, of the shape the parser builds for
`int main() { return 42; }`. -/
def sample_tree : ASTNode :=
  ASTNode.node NODE_PROGRAM dummy_token
    (ASTNode.node NODE_FUNCTION_DEF
      { type := TOK_IDENTIFIER, value := CharPtr.str "main".toList, line := 1, column := 5 }
      (ASTNode.node NODE_RETURN_STMT
        { type := TOK_RETURN, value := CharPtr.str "return".toList, line := 1, column := 14 }
        (ASTNode.node NODE_INTEGER_LITERAL
          { type := TOK_INTEGER, value := CharPtr.str "42".toList, line := 1, column := 21 }
          ASTNode.null ASTNode.null)
        ASTNode.null)
      ASTNode.null)
    ASTNode.null

/-- A result inside the range of an `int` is held unchanged. -/
theorem int32_eq (x : Int) (h1 : -2147483648 ≤ x) (h2 : x ≤ 2147483647) : int32 x = x := by
  unfold int32
  omega

/-- A natural number that is at most `INT_MAX` is held unchanged. -/
theorem int32_natCast (n : Nat) (h : n ≤ INT_MAX) : int32 (n : Int) = (n : Int) := by
  unfold INT_MAX at h
  exact int32_eq _ (by omega) (by omega)

/-! ## The parser: supporting lemmas -/

theorem current_token_eq (p : Parser) :
    current_token p = p.tokens.tokens[p.current_pos]? := by
  unfold current_token TokenStream.count
  split
  · rename_i h
    exact (List.getElem?_eq_none h).symm
  · rfl

theorem consume_eq (p : Parser) (ty : TokenType) :
    consume p ty =
      match p.tokens.tokens[p.current_pos]? with
      | some t => if t.type = ty then (true, { p with current_pos := p.current_pos + 1 }) else (false, p)
      | none => (false, p) := by
  unfold consume match_token advance
  rw [current_token_eq]
  cases h : p.tokens.tokens[p.current_pos]? with
  | none => simp
  | some t =>
    have hlt : p.current_pos < p.tokens.count := by
      unfold TokenStream.count
      by_contra hge
      rw [List.getElem?_eq_none (by omega)] at h
      cases h
    by_cases ht : t.type = ty <;> simp [ht, hlt]

theorem advance_eq (p : Parser) :
    advance p = match p.tokens.tokens[p.current_pos]? with
      | some _ => { p with current_pos := p.current_pos + 1 }
      | none => p := by
  unfold advance
  cases h : p.tokens.tokens[p.current_pos]? with
  | none =>
    have : ¬ p.current_pos < p.tokens.count := by
      unfold TokenStream.count
      intro hlt
      rw [List.getElem?_eq_getElem hlt] at h
      cases h
    simp [this]
  | some t =>
    have hlt : p.current_pos < p.tokens.count := by
      unfold TokenStream.count
      by_contra hge
      rw [List.getElem?_eq_none (by omega)] at h
      cases h
    simp [hlt]




theorem parse_integer_eq (p : Parser) :
    parse_integer p =
      match p.tokens.tokens[p.current_pos]? with
      | some t =>
        if t.type = TOK_INTEGER then
          (ASTNode.node NODE_INTEGER_LITERAL t ASTNode.null ASTNode.null,
            { p with current_pos := p.current_pos + 1 })
        else (ASTNode.null, p)
      | none => (ASTNode.null, p) := by
  unfold parse_integer
  rw [current_token_eq, advance_eq]
  cases h : p.tokens.tokens[p.current_pos]? with
  | none => rfl
  | some t => by_cases ht : t.type = TOK_INTEGER <;> simp [ht, create_node]


theorem consume_some (p : Parser) (ty : TokenType) (t : Token)
    (h : p.tokens.tokens[p.current_pos]? = some t) (ht : t.type = ty) :
    consume p ty = (true, { p with current_pos := p.current_pos + 1 }) := by
  rw [consume_eq, h]; simp [ht]

theorem consume_other (p : Parser) (ty : TokenType) (t : Token)
    (h : p.tokens.tokens[p.current_pos]? = some t) (ht : ¬ t.type = ty) :
    consume p ty = (false, p) := by
  rw [consume_eq, h]; simp [ht]

theorem consume_none (p : Parser) (ty : TokenType)
    (h : p.tokens.tokens[p.current_pos]? = none) :
    consume p ty = (false, p) := by
  rw [consume_eq, h]

/-- The outcomes of `parse_return_stmt`: no node, `return ;` or `return INTEGER ;`. -/
theorem parse_return_stmt_cases (p : Parser) :
    (parse_return_stmt p).1 = ASTNode.null ∨
    (∃ t0 t1, p.tokens.tokens[p.current_pos]? = some t0 ∧ t0.type = TOK_RETURN ∧
      p.tokens.tokens[p.current_pos + 1]? = some t1 ∧ t1.type = TOK_SEMICOLON ∧
      parse_return_stmt p =
        (ASTNode.node NODE_RETURN_STMT t0 ASTNode.null ASTNode.null,
          { p with current_pos := p.current_pos + 2 })) ∨
    (∃ t0 t1 t2, p.tokens.tokens[p.current_pos]? = some t0 ∧ t0.type = TOK_RETURN ∧
      p.tokens.tokens[p.current_pos + 1]? = some t1 ∧ t1.type = TOK_INTEGER ∧
      p.tokens.tokens[p.current_pos + 2]? = some t2 ∧ t2.type = TOK_SEMICOLON ∧
      parse_return_stmt p =
        (ASTNode.node NODE_RETURN_STMT t0
            (ASTNode.node NODE_INTEGER_LITERAL t1 ASTNode.null ASTNode.null) ASTNode.null,
          { p with current_pos := p.current_pos + 3 })) := by
  unfold parse_return_stmt
  cases h0 : p.tokens.tokens[p.current_pos]? with
  | none => left; simp [consume_none p _ h0]
  | some t0 =>
    by_cases ht0 : t0.type = TOK_RETURN
    · simp only [consume_some p _ t0 h0 ht0, parse_integer_eq, Nat.add_sub_cancel, h0,
        Option.getD_some, Bool.not_true, Bool.false_eq_true, if_false]
      cases h1 : p.tokens.tokens[p.current_pos + 1]? with
      | none =>
        left
        simp [consume_none { p with current_pos := p.current_pos + 1 } _ h1]
      | some t1 =>
        by_cases ht1 : t1.type = TOK_INTEGER
        · simp only [ht1, if_true]
          cases h2 : p.tokens.tokens[p.current_pos + 2]? with
          | none =>
            left
            simp [consume_none { p with current_pos := p.current_pos + 1 + 1 } _
              (by simpa [Nat.add_assoc] using h2)]
          | some t2 =>
            by_cases ht2 : t2.type = TOK_SEMICOLON
            · right; right
              refine ⟨t0, t1, t2, rfl, ht0, rfl, ht1, rfl, ht2, ?_⟩
              simp [consume_some { p with current_pos := p.current_pos + 1 + 1 } _ t2
                (by simpa [Nat.add_assoc] using h2) ht2, create_node, set_left, Nat.add_assoc]
            · left
              simp [consume_other { p with current_pos := p.current_pos + 1 + 1 } _ t2
                (by simpa [Nat.add_assoc] using h2) ht2]
        · simp only [ht1, if_false]
          by_cases hs : t1.type = TOK_SEMICOLON
          · right; left
            refine ⟨t0, t1, rfl, ht0, rfl, hs, ?_⟩
            simp [consume_some { p with current_pos := p.current_pos + 1 } _ t1 h1 hs,
              create_node, set_left]
          · left
            simp [consume_other { p with current_pos := p.current_pos + 1 } _ t1 h1 hs]
    · left; simp [consume_other p _ t0 h0 ht0]

/-- The outcomes of `parse_block`: no node, or the statement between the braces. -/
theorem parse_block_cases (p : Parser) :
    (parse_block p).1 = ASTNode.null ∨
    (∃ tb te, p.tokens.tokens[p.current_pos]? = some tb ∧ tb.type = TOK_LBRACE ∧
      (parse_return_stmt { p with current_pos := p.current_pos + 1 }).1 ≠ ASTNode.null ∧
      (parse_return_stmt { p with current_pos := p.current_pos + 1 }).2.tokens.tokens[
        (parse_return_stmt { p with current_pos := p.current_pos + 1 }).2.current_pos]? = some te ∧
      te.type = TOK_RBRACE ∧
      (parse_block p).1 = (parse_return_stmt { p with current_pos := p.current_pos + 1 }).1) := by
  unfold parse_block
  cases h0 : p.tokens.tokens[p.current_pos]? with
  | none => left; simp [consume_none p _ h0]
  | some tb =>
    by_cases hb : tb.type = TOK_LBRACE
    · simp only [consume_some p _ tb h0 hb, Bool.not_true, Bool.false_eq_true, if_false]
      generalize parse_return_stmt { p with current_pos := p.current_pos + 1 } = r
      cases h1 : r.2.tokens.tokens[r.2.current_pos]? with
      | none => left; simp [consume_none _ _ h1]
      | some te =>
        by_cases he : te.type = TOK_RBRACE
        · by_cases hs : r.1 = ASTNode.null
          · left; simp [consume_some _ _ te h1 he, hs]
          · right
            exact ⟨tb, te, rfl, hb, hs, rfl, he, by simp [consume_some _ _ te h1 he]⟩
        · left; simp [consume_other _ _ te h1 he]
    · left; simp [consume_other p _ tb h0 hb]

/-- The outcomes of `parse_function`: no node, or a function node named by the
second token whose body is what `parse_block` returns after `)`. -/
theorem parse_function_cases (p : Parser) :
    (parse_function p).1 = ASTNode.null ∨
    (∃ t0 t1 t2 t3, p.tokens.tokens[p.current_pos]? = some t0 ∧ t0.type = TOK_INT ∧
      p.tokens.tokens[p.current_pos + 1]? = some t1 ∧ t1.type = TOK_IDENTIFIER ∧
      p.tokens.tokens[p.current_pos + 2]? = some t2 ∧ t2.type = TOK_LPAREN ∧
      p.tokens.tokens[p.current_pos + 3]? = some t3 ∧ t3.type = TOK_RPAREN ∧
      (parse_function p).1 =
        ASTNode.node NODE_FUNCTION_DEF t1
          (parse_block { p with current_pos := p.current_pos + 4 }).1 ASTNode.null) := by
  unfold parse_function
  cases h0 : p.tokens.tokens[p.current_pos]? with
  | none => left; simp [consume_none p _ h0]
  | some t0 =>
    by_cases ht0 : t0.type = TOK_INT
    · simp only [consume_some p _ t0 h0 ht0, current_token_eq, advance_eq,
        Bool.not_true, Bool.false_eq_true, if_false]
      cases h1 : p.tokens.tokens[p.current_pos + 1]? with
      | none => left; simp
      | some t1 =>
        by_cases ht1 : t1.type = TOK_IDENTIFIER
        · simp only [ht1, ne_eq, not_true_eq_false, if_false]
          cases h2 : p.tokens.tokens[p.current_pos + 2]? with
          | none =>
            left
            simp [consume_none { p with current_pos := p.current_pos + 1 + 1 } _
              (by simpa [Nat.add_assoc] using h2)]
          | some t2 =>
            by_cases ht2 : t2.type = TOK_LPAREN
            · simp only [consume_some { p with current_pos := p.current_pos + 1 + 1 } _ t2
                (by simpa [Nat.add_assoc] using h2) ht2, Bool.not_true, Bool.false_eq_true,
                if_false]
              cases h3 : p.tokens.tokens[p.current_pos + 3]? with
              | none =>
                left
                simp [consume_none { p with current_pos := p.current_pos + 1 + 1 + 1 } _
                  (by simpa [Nat.add_assoc] using h3)]
              | some t3 =>
                by_cases ht3 : t3.type = TOK_RPAREN
                · right
                  refine ⟨t0, t1, t2, t3, rfl, ht0, rfl, ht1, rfl, ht2, rfl, ht3, ?_⟩
                  simp [consume_some { p with current_pos := p.current_pos + 1 + 1 + 1 } _ t3
                    (by simpa [Nat.add_assoc] using h3) ht3, create_node, set_left, Nat.add_assoc]
                · left
                  simp [consume_other { p with current_pos := p.current_pos + 1 + 1 + 1 } _ t3
                    (by simpa [Nat.add_assoc] using h3) ht3]
            · left
              simp [consume_other { p with current_pos := p.current_pos + 1 + 1 } _ t2
                (by simpa [Nat.add_assoc] using h2) ht2]
        · left; simp [ht1]
    · left; simp [consume_other p _ t0 h0 ht0]


/-- The tree for a stream that begins `int NAME ( ) { return ; }`. -/
theorem parse_tree_simple (ts : TokenStream) (fn : Option String)
    (h : [TOK_INT, TOK_IDENTIFIER, TOK_LPAREN, TOK_RPAREN, TOK_LBRACE, TOK_RETURN,
      TOK_SEMICOLON, TOK_RBRACE] <+: kinds ts) :
    ∃ name ret, ts.tokens[1]? = some name ∧ ts.tokens[5]? = some ret ∧
      parse_tree ts fn =
        ASTNode.node NODE_PROGRAM dummy_token
          (ASTNode.node NODE_FUNCTION_DEF name
            (ASTNode.node NODE_RETURN_STMT ret ASTNode.null ASTNode.null) ASTNode.null)
          ASTNode.null := by
  obtain ⟨l, cap, cur⟩ := ts
  simp only [kinds] at h
  rcases l with _ | ⟨t0, _ | ⟨t1, _ | ⟨t2, _ | ⟨t3, _ | ⟨t4, _ | ⟨t5, _ | ⟨t6, _ | ⟨t7, l⟩⟩⟩⟩⟩⟩⟩⟩ <;>
    simp [List.cons_prefix_cons] at h
  obtain ⟨h0, h1, h2, h3, h4, h5, h6, h7⟩ := h
  refine ⟨t1, t5, rfl, rfl, ?_⟩
  simp [parse_tree, parser_parse, parse_program, parse_function, parse_block, parse_return_stmt,
    parse_integer_eq, consume_eq, advance_eq, current_token_eq, parser_create, create_node, set_left,
    ← h0, ← h1, ← h2, ← h3, ← h4, ← h5, ← h6, ← h7, report]

/-- The tree for a stream that begins `int NAME ( ) { return INTEGER ; }`. -/
theorem parse_tree_valued (ts : TokenStream) (fn : Option String)
    (h : [TOK_INT, TOK_IDENTIFIER, TOK_LPAREN, TOK_RPAREN, TOK_LBRACE, TOK_RETURN,
      TOK_INTEGER, TOK_SEMICOLON, TOK_RBRACE] <+: kinds ts) :
    ∃ name ret val, ts.tokens[1]? = some name ∧ ts.tokens[5]? = some ret ∧
      ts.tokens[6]? = some val ∧
      parse_tree ts fn =
        ASTNode.node NODE_PROGRAM dummy_token
          (ASTNode.node NODE_FUNCTION_DEF name
            (ASTNode.node NODE_RETURN_STMT ret
              (ASTNode.node NODE_INTEGER_LITERAL val ASTNode.null ASTNode.null) ASTNode.null)
            ASTNode.null)
          ASTNode.null := by
  obtain ⟨l, cap, cur⟩ := ts
  simp only [kinds] at h
  rcases l with _ | ⟨t0, _ | ⟨t1, _ | ⟨t2, _ | ⟨t3, _ | ⟨t4, _ | ⟨t5, _ | ⟨t6, _ | ⟨t7, _ | ⟨t8, l⟩⟩⟩⟩⟩⟩⟩⟩⟩ <;>
    simp [List.cons_prefix_cons] at h
  obtain ⟨h0, h1, h2, h3, h4, h5, h6, h7, h8⟩ := h
  refine ⟨t1, t5, t6, rfl, rfl, rfl, ?_⟩
  simp [parse_tree, parser_parse, parse_program, parse_function, parse_block, parse_return_stmt,
    parse_integer_eq, consume_eq, advance_eq, current_token_eq, parser_create, create_node, set_left,
    ← h0, ← h1, ← h2, ← h3, ← h4, ← h5, ← h6, ← h7, ← h8, report]


theorem parse_tree_eq (ts : TokenStream) (fn : Option String) :
    parse_tree ts fn =
      ASTNode.node NODE_PROGRAM dummy_token (parse_function (parser_create ts fn)).1 ASTNode.null := by
  simp [parse_tree, parser_parse, parse_program, create_node, set_left]

/-- A list of kinds that agrees with the kinds of a token list at every one of
its indices is a prefix of them. -/
theorem kinds_prefix_of_getElem? (ks : List TokenType) (l : List Token)
    (h : ∀ i, i < ks.length → (l[i]?).map (fun t => t.type) = ks[i]?) :
    ks <+: l.map (fun t => t.type) := by
  induction ks generalizing l with
  | nil => exact List.nil_prefix
  | cons k ks ih =>
    cases l with
    | nil =>
      have := h 0 (by simp)
      simp at this
    | cons t l =>
      have h0 := h 0 (by simp)
      simp only [List.getElem?_cons_zero, Option.map_some', Option.some.injEq] at h0
      rw [List.map_cons, h0, List.cons_prefix_cons]
      refine ⟨rfl, ih l ?_⟩
      intro i hi
      have := h (i + 1) (by simpa using hi)
      simpa using this

/-- A present function child with a present body forces one of the two accepted
shapes on the kinds of the stream. -/
theorem parse_body_present_shape (ts : TokenStream) (fn : Option String)
    (hb : (parse_tree ts fn).left.left ≠ ASTNode.null) :
    [TOK_INT, TOK_IDENTIFIER, TOK_LPAREN, TOK_RPAREN, TOK_LBRACE, TOK_RETURN,
        TOK_SEMICOLON, TOK_RBRACE] <+: kinds ts ∨
      [TOK_INT, TOK_IDENTIFIER, TOK_LPAREN, TOK_RPAREN, TOK_LBRACE, TOK_RETURN,
        TOK_INTEGER, TOK_SEMICOLON, TOK_RBRACE] <+: kinds ts := by
  rw [parse_tree_eq] at hb
  simp only [ASTNode.left] at hb
  rcases parse_function_cases (parser_create ts fn) with hf | ⟨t0, t1, t2, t3, h0, k0, h1, k1, h2, k2, h3, k3, hf⟩
  · rw [hf] at hb; exact absurd rfl hb
  · rw [hf] at hb
    simp only [ASTNode.left] at hb
    rcases parse_block_cases { parser_create ts fn with
        current_pos := (parser_create ts fn).current_pos + 4 } with
      hn | ⟨tb, te, h4, k4, hs, he, ke, -⟩
    · exact absurd hn hb
    · rcases parse_return_stmt_cases { parser_create ts fn with
          current_pos := (parser_create ts fn).current_pos + 4 + 1 } with
        hn | ⟨t5, t6, h5, k5, h6, k6, hr⟩ | ⟨t5, t6, t7, h5, k5, h6, k6, h7, k7, hr⟩
      · exact absurd hn hs
      · left
        rw [hr] at he
        simp only [parser_create, Nat.zero_add, Nat.reduceAdd] at h0 h1 h2 h3 h4 h5 h6 he
        apply kinds_prefix_of_getElem?
        intro i hi
        simp only [List.length_cons, List.length_nil, Nat.reduceAdd] at hi
        interval_cases i <;> simp [*]
      · right
        rw [hr] at he
        simp only [parser_create, Nat.zero_add, Nat.reduceAdd] at h0 h1 h2 h3 h4 h5 h6 h7 he
        apply kinds_prefix_of_getElem?
        intro i hi
        simp only [List.length_cons, List.length_nil, Nat.reduceAdd] at hi
        interval_cases i <;> simp [*]

/-! ## The tokenizer: supporting lemmas -/

theorem strcmp_self (v : List Char) : strcmp v v = 0 := by
  induction v with
  | nil => rfl
  | cons a as ih => simp [strcmp, ih]

theorem create_token_value (ty : TokenType) (v : Option (List Char)) (l c : Int) :
    (create_token ty v l c).value = CharPtr.null := by
  cases v <;> simp [create_token, strcmp_self, intToCharPtr]

theorem create_token_type (ty : TokenType) (v : Option (List Char)) (l c : Int) :
    (create_token ty v l c).type = ty := rfl

theorem token_stream_add_tokens (s : TokenStream) (t : Token) :
    (token_stream_add s t).tokens = s.tokens ++ [t] := rfl

theorem keyword_type_ne_eof (v : List Char) : keyword_type v ≠ TOK_EOF := by
  unfold keyword_type
  split_ifs <;> decide

theorem lookup_mem_values {α β : Type} [BEq α] (a : α) (l : List (α × β)) (b : β)
    (h : l.lookup a = some b) : b ∈ l.map Prod.snd := by
  induction l with
  | nil => simp [List.lookup] at h
  | cons p l ih =>
    obtain ⟨x, y⟩ := p
    unfold List.lookup at h
    split at h
    · injection h with h; subst h; simp
    · simp only [List.map_cons, List.mem_cons]
      exact Or.inr (ih h)

theorem single_char_type_ne_eof (c : Char) : single_char_type c ≠ TOK_EOF := by
  unfold single_char_type
  cases h : single_char_cases.lookup c with
  | none => simp
  | some ty =>
    have hm := lookup_mem_values c single_char_cases ty h
    simp only [Option.getD_some]
    intro he
    subst he
    revert hm
    decide

theorem lex_string_stream (buf : List Char) (st st1 : LexState)
    (h : lex_string buf st = some st1) : StreamStep st.stream st1.stream := by
  unfold lex_string at h
  split at h
  · cases h
  · split at h
    · cases h
    · dsimp only at h
      rw [Option.ite_none_left_eq_some] at h
      obtain ⟨_, h⟩ := h
      injection h with h
      subst h
      exact Or.inr ⟨_, _, _, _, by decide, rfl⟩

theorem lex_char_stream (buf : List Char) (st st1 : LexState)
    (h : lex_char buf st = some st1) : StreamStep st.stream st1.stream := by
  unfold lex_char at h
  split at h
  · cases h
  · dsimp only at h
    split at h
    · cases h
    · injection h with h
      subst h
      exact Or.inr ⟨_, _, _, _, by decide, rfl⟩

theorem lex_block_comment_stream (buf : List Char) (st st1 : LexState)
    (h : lex_block_comment buf st = some st1) : StreamStep st.stream st1.stream := by
  unfold lex_block_comment at h
  split at h
  · cases h
  · split at h
    · cases h
    · split at h <;> (injection h with h; subst h; exact Or.inl rfl)

theorem lex_line_comment_stream (buf : List Char) (st st1 : LexState)
    (h : lex_line_comment buf st = some st1) : StreamStep st.stream st1.stream := by
  unfold lex_line_comment at h
  split at h
  · cases h
  · injection h with h; subst h; exact Or.inl rfl

theorem lex_integer_stream (buf : List Char) (st st1 : LexState)
    (h : lex_integer buf st = some st1) : StreamStep st.stream st1.stream := by
  unfold lex_integer at h
  split at h
  · cases h
  · dsimp only at h
    rw [Option.ite_none_left_eq_some] at h
    obtain ⟨_, h⟩ := h
    injection h with h; subst h
    exact Or.inr ⟨_, _, _, _, by decide, rfl⟩

theorem lex_word_stream (buf : List Char) (st st1 : LexState)
    (h : lex_word buf st = some st1) : StreamStep st.stream st1.stream := by
  unfold lex_word at h
  split at h
  · cases h
  · dsimp only at h
    rw [Option.ite_none_left_eq_some] at h
    obtain ⟨_, h⟩ := h
    injection h with h; subst h
    exact Or.inr ⟨_, _, _, _, keyword_type_ne_eof _, rfl⟩

theorem lex_operator_stream (ty : TokenType) (text : String) (st : LexState) (h : ty ≠ TOK_EOF) :
    StreamStep st.stream (lex_operator ty text st).stream :=
  Or.inr ⟨_, _, _, _, h, rfl⟩

theorem lex_single_stream (c : Char) (st : LexState) :
    StreamStep st.stream (lex_single c st).stream := by
  unfold lex_single
  by_cases h : single_char_type c = TOK_ERROR
  · left; simp [h]
  · right
    exact ⟨single_char_type c, [c], st.line, st.column, single_char_type_ne_eof c, by simp [h]⟩

theorem lex_space_stream (c : Char) (st : LexState) :
    StreamStep st.stream (lex_space c st).stream := by
  unfold lex_space
  split <;> exact Or.inl rfl

theorem two_chars_some (buf : List Char) (pos : Nat) (c a b : Char)
    (h : two_chars buf pos c a b = some true) :
    c = a ∧ buf[pos + 1]? = some b := by
  unfold two_chars at h
  by_cases hc : (c == a) = true
  · rw [if_pos hc] at h
    cases hb : buf[pos + 1]? with
    | none => rw [hb] at h; cases h
    | some d =>
      rw [hb] at h
      simp only [Option.map_some', Option.some.injEq, beq_iff_eq] at h
      exact ⟨by simpa using hc, by rw [h]⟩
  · rw [if_neg hc] at h; cases h

/-- The branch of the loop body that produced a state. -/
theorem tokenize_body_cases (buf : List Char) (c : Char) (st st1 : LexState)
    (h : tokenize_body buf c st = some st1) :
    (isspace c = true ∧ st1 = lex_space c st) ∨
    (c = '"' ∧ lex_string buf st = some st1) ∨
    (c = '\'' ∧ lex_char buf st = some st1) ∨
    (c = '/' ∧ buf[st.pos + 1]? = some '*' ∧ lex_block_comment buf st = some st1) ∨
    (c = '/' ∧ buf[st.pos + 1]? = some '/' ∧ lex_line_comment buf st = some st1) ∨
    (isdigit c = true ∧ lex_integer buf st = some st1) ∨
    ((isalpha c || c == '_') = true ∧ lex_word buf st = some st1) ∨
    (∃ ty text d, ty ≠ TOK_EOF ∧ d ≠ NUL ∧ buf[st.pos + 1]? = some d ∧
      st1 = lex_operator ty text st) ∨
    st1 = lex_single c st := by
  unfold tokenize_body at h
  by_cases h0 : isspace c = true
  · rw [if_pos h0] at h
    injection h with h
    exact Or.inl ⟨h0, h.symm⟩
  rw [if_neg h0] at h
  by_cases h1 : (c == '"') = true
  · rw [if_pos h1] at h
    exact Or.inr (Or.inl ⟨by simpa using h1, h⟩)
  rw [if_neg h1] at h
  by_cases h2 : (c == '\'') = true
  · rw [if_pos h2] at h
    exact Or.inr (Or.inr (Or.inl ⟨by simpa using h2, h⟩))
  rw [if_neg h2] at h
  cases k1 : two_chars buf st.pos c '/' '*' with
  | none => rw [k1] at h; cases h
  | some b1 =>
  rw [k1, Option.some_bind] at h
  cases b1 with
  | true =>
    rw [if_pos rfl] at h
    have := two_chars_some _ _ _ _ _ k1
    exact Or.inr (Or.inr (Or.inr (Or.inl ⟨this.1, this.2, h⟩)))
  | false =>
  rw [if_neg Bool.false_ne_true] at h
  cases k2 : two_chars buf st.pos c '/' '/' with
  | none => rw [k2] at h; cases h
  | some b2 =>
  rw [k2, Option.some_bind] at h
  cases b2 with
  | true =>
    rw [if_pos rfl] at h
    have := two_chars_some _ _ _ _ _ k2
    exact Or.inr (Or.inr (Or.inr (Or.inr (Or.inl ⟨this.1, this.2, h⟩))))
  | false =>
  rw [if_neg Bool.false_ne_true] at h
  by_cases h3 : isdigit c = true
  · rw [if_pos h3] at h
    exact Or.inr (Or.inr (Or.inr (Or.inr (Or.inr (Or.inl ⟨h3, h⟩)))))
  rw [if_neg h3] at h
  by_cases h4 : (isalpha c || c == '_') = true
  · rw [if_pos h4] at h
    exact Or.inr (Or.inr (Or.inr (Or.inr (Or.inr (Or.inr (Or.inl ⟨h4, h⟩))))))
  rw [if_neg h4] at h
  refine Or.inr (Or.inr (Or.inr (Or.inr (Or.inr (Or.inr (Or.inr ?_))))))
  cases k3 : two_chars buf st.pos c '=' '=' with
  | none => rw [k3] at h; cases h
  | some b3 =>
  rw [k3, Option.some_bind] at h
  cases b3 with
  | true =>
    rw [if_pos rfl] at h
    injection h with h
    exact Or.inl ⟨_, _, _, by decide, by decide, (two_chars_some _ _ _ _ _ k3).2, h.symm⟩
  | false =>
  rw [if_neg Bool.false_ne_true] at h
  cases k4 : two_chars buf st.pos c '!' '=' with
  | none => rw [k4] at h; cases h
  | some b4 =>
  rw [k4, Option.some_bind] at h
  cases b4 with
  | true =>
    rw [if_pos rfl] at h
    injection h with h
    exact Or.inl ⟨_, _, _, by decide, by decide, (two_chars_some _ _ _ _ _ k4).2, h.symm⟩
  | false =>
  rw [if_neg Bool.false_ne_true] at h
  cases k5 : two_chars buf st.pos c '<' '=' with
  | none => rw [k5] at h; cases h
  | some b5 =>
  rw [k5, Option.some_bind] at h
  cases b5 with
  | true =>
    rw [if_pos rfl] at h
    injection h with h
    exact Or.inl ⟨_, _, _, by decide, by decide, (two_chars_some _ _ _ _ _ k5).2, h.symm⟩
  | false =>
  rw [if_neg Bool.false_ne_true] at h
  cases k6 : two_chars buf st.pos c '>' '=' with
  | none => rw [k6] at h; cases h
  | some b6 =>
  rw [k6, Option.some_bind] at h
  cases b6 with
  | true =>
    rw [if_pos rfl] at h
    injection h with h
    exact Or.inl ⟨_, _, _, by decide, by decide, (two_chars_some _ _ _ _ _ k6).2, h.symm⟩
  | false =>
  rw [if_neg Bool.false_ne_true] at h
  cases k7 : two_chars buf st.pos c '-' '>' with
  | none => rw [k7] at h; cases h
  | some b7 =>
  rw [k7, Option.some_bind] at h
  cases b7 with
  | true =>
    rw [if_pos rfl] at h
    injection h with h
    exact Or.inl ⟨_, _, _, by decide, by decide, (two_chars_some _ _ _ _ _ k7).2, h.symm⟩
  | false =>
  rw [if_neg Bool.false_ne_true] at h
  injection h with h
  exact Or.inr h.symm

theorem tokenize_body_stream (buf : List Char) (c : Char) (st st1 : LexState)
    (h : tokenize_body buf c st = some st1) : StreamStep st.stream st1.stream := by
  rcases tokenize_body_cases buf c st st1 h with
    ⟨-, h⟩ | ⟨-, h⟩ | ⟨-, h⟩ | ⟨-, -, h⟩ | ⟨-, -, h⟩ | ⟨-, h⟩ | ⟨-, h⟩ | ⟨ty, text, d, hty, -, -, h⟩ | h
  · subst h; exact lex_space_stream c st
  · exact lex_string_stream buf st st1 h
  · exact lex_char_stream buf st st1 h
  · exact lex_block_comment_stream buf st st1 h
  · exact lex_line_comment_stream buf st st1 h
  · exact lex_integer_stream buf st st1 h
  · exact lex_word_stream buf st st1 h
  · subst h; exact lex_operator_stream ty text st hty
  · subst h; exact lex_single_stream c st


/-- A property of the stream that every pass of the loop body preserves holds
when the loop ends. -/
theorem tokenize_loop_stream (buf : List Char) (P : TokenStream → Prop)
    (hP : ∀ s s1, P s → StreamStep s s1 → P s1) :
    ∀ (fuel : Nat) (st st1 : LexState), P st.stream →
      tokenize_loop buf fuel st = Outcome.ok st1 → P st1.stream := by
  intro fuel
  induction fuel with
  | zero => intro st st1 _ h; cases h
  | succ fuel ih =>
    intro st st1 hst h
    unfold tokenize_loop at h
    cases hc : buf[st.pos]? with
    | none => rw [hc] at h; cases h
    | some c =>
      rw [hc] at h
      dsimp only at h
      by_cases hn : (c != NUL) = true
      · rw [if_pos hn] at h
        cases hb : tokenize_body buf c st with
        | none => rw [hb] at h; cases h
        | some st2 =>
          rw [hb] at h
          exact ih st2 st1 (hP _ _ hst (tokenize_body_stream buf c st st2 hb)) h
      · rw [if_neg hn] at h
        injection h with h
        subst h
        exact hst

theorem bodyTokens_step (s s1 : TokenStream) (h : BodyTokens s) (hs : StreamStep s s1) :
    BodyTokens s1 := by
  rcases hs with rfl | ⟨ty, v, l, col, hty, rfl⟩
  · exact h
  · intro t ht
    rw [token_stream_add_tokens, List.mem_append, List.mem_singleton] at ht
    rcases ht with ht | rfl
    · exact h t ht
    · exact ⟨hty, create_token_value _ _ _ _⟩

/-- Whenever `tokenize` returns, its stream is a run of tokens that are not
`TOK_EOF` followed by one `TOK_EOF` token, and every token has a null text. -/
theorem tokenize_ok_shape (source : List Char) (st : LexState)
    (h : tokenize source = Outcome.ok st) :
    ∃ ts e, st.stream.tokens = ts ++ [e] ∧ e.type = TOK_EOF ∧ e.value = CharPtr.null ∧
      ∀ t ∈ ts, t.type ≠ TOK_EOF ∧ t.value = CharPtr.null := by
  unfold tokenize at h
  cases hl : tokenize_loop (source_buffer source) (source.length + 1) lex_init with
  | fault => rw [hl] at h; cases h
  | outOfFuel => rw [hl] at h; cases h
  | ok st0 =>
    rw [hl] at h
    injection h with h
    subst h
    have hb : BodyTokens st0.stream :=
      tokenize_loop_stream _ BodyTokens bodyTokens_step _ lex_init st0
        (by intro t ht; simp [lex_init] at ht) hl
    exact ⟨st0.stream.tokens, _, rfl, rfl, create_token_value _ _ _ _, hb⟩

theorem string_loop_pos : ∀ (l : List Char) (p : Nat) (ln c : Int) (p1 : Nat) (ln1 c1 : Int),
    string_loop l p ln c = some (p1, ln1, c1) → p ≤ p1 ∧ p1 < p + l.length := by
  intro l
  induction l with
  | nil => intro p ln c p1 ln1 c1 h; cases h
  | cons a l ih =>
    intro p ln c p1 ln1 c1 h
    unfold string_loop at h
    by_cases h0 : (a != '"' && a != NUL) = true
    · rw [if_pos h0] at h
      by_cases h1 : (a == '\n') = true
      · rw [if_pos h1] at h
        have := ih _ _ _ _ _ _ h
        simp only [List.length_cons]; omega
      · rw [if_neg h1] at h
        have := ih _ _ _ _ _ _ h
        simp only [List.length_cons]; omega
    · rw [if_neg h0] at h
      injection h with h
      injection h with h1 h2
      simp only [List.length_cons]; omega

theorem block_comment_loop_pos : ∀ (l : List Char) (p : Nat) (ln c : Int) (p1 : Nat) (ln1 c1 : Int),
    block_comment_loop l p ln c = some (p1, ln1, c1) →
      p ≤ p1 ∧ p1 < p + l.length ∧ (l[p1 - p]? = some '*' → l[p1 - p + 1]? = some '/') := by
  intro l
  induction l with
  | nil => intro p ln c p1 ln1 c1 h; cases h
  | cons a l ih =>
    intro p ln c p1 ln1 c1 h
    unfold block_comment_loop at h
    by_cases h0 : (a == '*') = true
    · rw [if_pos h0] at h
      cases l with
      | nil => cases h
      | cons d l =>
        dsimp only at h
        by_cases h1 : (d == '/') = true
        · rw [if_pos h1] at h
          injection h with h
          injection h with h2 h3
          subst h2
          refine ⟨le_refl _, by simp, ?_⟩
          intro _
          simp only [Nat.sub_self, Nat.zero_add, List.getElem?_cons_succ, List.getElem?_cons_zero]
          rw [beq_iff_eq] at h1
          rw [h1]
        · rw [if_neg h1] at h
          obtain ⟨k1, k2, k3⟩ := ih _ _ _ _ _ _ h
          refine ⟨by omega, by simp only [List.length_cons] at k2 ⊢; omega, ?_⟩
          have : p1 - p = (p1 - (p + 1)) + 1 := by omega
          rw [this]
          simpa using k3
    · rw [if_neg h0] at h
      by_cases h1 : (a != NUL) = true
      · rw [if_pos h1] at h
        have ih' : ∀ ln c, block_comment_loop l (p + 1) ln c = some (p1, ln1, c1) →
            p ≤ p1 ∧ p1 < p + (a :: l).length ∧
              ((a :: l)[p1 - p]? = some '*' → (a :: l)[p1 - p + 1]? = some '/') := by
          intro ln c h
          obtain ⟨k1, k2, k3⟩ := ih _ _ _ _ _ _ h
          refine ⟨by omega, by simp only [List.length_cons]; omega, ?_⟩
          have : p1 - p = (p1 - (p + 1)) + 1 := by omega
          rw [this]
          simpa using k3
        by_cases h2 : (a == '\n') = true
        · rw [if_pos h2] at h
          exact ih' _ _ h
        · rw [if_neg h2] at h
          exact ih' _ _ h
      · rw [if_neg h1] at h
        injection h with h
        injection h with h2 h3
        subst h2
        refine ⟨le_refl _, by simp, ?_⟩
        intro hs
        simp only [Nat.sub_self, List.getElem?_cons_zero, Option.some.injEq] at hs
        rw [hs] at h0
        exact absurd rfl h0

theorem line_comment_loop_pos : ∀ (l : List Char) (p : Nat) (c : Int) (p1 : Nat) (c1 : Int),
    line_comment_loop l p c = some (p1, c1) →
      p ≤ p1 ∧ p1 < p + l.length ∧ ((l.head?.map fun a => a != '\n' && a != NUL) = some true → p < p1) := by
  intro l
  induction l with
  | nil => intro p c p1 c1 h; cases h
  | cons a l ih =>
    intro p c p1 c1 h
    unfold line_comment_loop at h
    by_cases h0 : (a != '\n' && a != NUL) = true
    · rw [if_pos h0] at h
      obtain ⟨k1, k2, -⟩ := ih _ _ _ _ h
      exact ⟨by omega, by simp only [List.length_cons]; omega, fun _ => by omega⟩
    · rw [if_neg h0] at h
      injection h with h
      injection h with h2 h3
      subst h2
      refine ⟨le_refl _, by simp, ?_⟩
      intro hs
      simp only [List.head?_cons, Option.map_some', Option.some.injEq] at hs
      exact absurd hs h0

theorem digit_loop_pos : ∀ (l : List Char) (p : Nat) (c : Int) (p1 : Nat) (c1 : Int),
    digit_loop l p c = some (p1, c1) →
      p ≤ p1 ∧ p1 < p + l.length ∧ ((l.head?.map isdigit) = some true → p < p1) := by
  intro l
  induction l with
  | nil => intro p c p1 c1 h; cases h
  | cons a l ih =>
    intro p c p1 c1 h
    unfold digit_loop at h
    by_cases h0 : isdigit a = true
    · rw [if_pos h0] at h
      obtain ⟨k1, k2, -⟩ := ih _ _ _ _ h
      exact ⟨by omega, by simp only [List.length_cons]; omega, fun _ => by omega⟩
    · rw [if_neg h0] at h
      injection h with h
      injection h with h2 h3
      subst h2
      refine ⟨le_refl _, by simp, ?_⟩
      intro hs
      simp only [List.head?_cons, Option.map_some', Option.some.injEq] at hs
      exact absurd hs h0

theorem identifier_loop_pos : ∀ (l : List Char) (p : Nat) (c : Int) (p1 : Nat) (c1 : Int),
    identifier_loop l p c = some (p1, c1) →
      p ≤ p1 ∧ p1 < p + l.length ∧ ((l.head?.map is_identifier_char) = some true → p < p1) := by
  intro l
  induction l with
  | nil => intro p c p1 c1 h; cases h
  | cons a l ih =>
    intro p c p1 c1 h
    unfold identifier_loop at h
    by_cases h0 : is_identifier_char a = true
    · rw [if_pos h0] at h
      obtain ⟨k1, k2, -⟩ := ih _ _ _ _ h
      exact ⟨by omega, by simp only [List.length_cons]; omega, fun _ => by omega⟩
    · rw [if_neg h0] at h
      injection h with h
      injection h with h2 h3
      subst h2
      refine ⟨le_refl _, by simp, ?_⟩
      intro hs
      simp only [List.head?_cons, Option.map_some', Option.some.injEq] at hs
      exact absurd hs h0


theorem buf_lt_of_ne_nul (source : List Char) (i : Nat) (c : Char)
    (h : (source ++ [NUL])[i]? = some c) (hc : c ≠ NUL) : i < source.length := by
  by_contra hge
  rcases Nat.lt_or_ge source.length i with hgt | hle
  · rw [List.getElem?_eq_none (by simp; omega)] at h
    cases h
  · have : i = source.length := by omega
    subst this
    simp at h
    exact hc h.symm

theorem buf_le_of_some (source : List Char) (i : Nat) (c : Char)
    (h : (source ++ [NUL])[i]? = some c) : i ≤ source.length := by
  by_contra hge
  rw [List.getElem?_eq_none (by simp; omega)] at h
  cases h

theorem lex_string_pos (source : List Char) (st st1 : LexState)
    (hp : st.pos < source.length)
    (h : lex_string (source ++ [NUL]) st = some st1) :
    st.pos < st1.pos ∧ st1.pos ≤ source.length := by
  unfold lex_string at h
  dsimp only at h
  cases hl : string_loop (List.drop (st.pos + 1) (source ++ [NUL])) (st.pos + 1) st.line
      (int32 (st.column + 1)) with
  | none => rw [hl] at h; cases h
  | some r =>
    obtain ⟨p1, ln1, c1⟩ := r
    rw [hl] at h
    dsimp only at h
    obtain ⟨k1, k2⟩ := string_loop_pos _ _ _ _ _ _ _ hl
    simp only [List.length_drop, List.length_append, List.length_singleton] at k2
    cases hd : (source ++ [NUL])[p1]? with
    | none => rw [hd] at h; cases h
    | some d =>
      rw [hd] at h
      dsimp only at h
      rw [Option.ite_none_left_eq_some] at h
      obtain ⟨_, h⟩ := h
      injection h with h
      subst h
      dsimp only
      by_cases hq : (d == '"') = true
      · rw [if_pos hq]
        have := buf_lt_of_ne_nul source p1 d hd (by rw [beq_iff_eq] at hq; rw [hq]; decide)
        omega
      · rw [if_neg hq]; omega

theorem lex_char_pos (source : List Char) (st st1 : LexState)
    (h : lex_char (source ++ [NUL]) st = some st1) :
    st.pos < st1.pos ∧ st1.pos ≤ source.length := by
  unfold lex_char at h
  dsimp only at h
  cases he : (source ++ [NUL])[st.pos + 1]? with
  | none => rw [he] at h; cases h
  | some e =>
    rw [he] at h
    dsimp only at h
    generalize hp1 : (if (e == '\\') = true then st.pos + 1 + 2 else st.pos + 1 + 1) = pos1 at h
    have hp1' : st.pos < pos1 := by
      rw [← hp1]; split <;> omega
    cases hd : (source ++ [NUL])[pos1]? with
    | none => rw [hd] at h; cases h
    | some d =>
      rw [hd] at h
      dsimp only at h
      injection h with h
      subst h
      dsimp only
      by_cases hq : (d == '\'') = true
      · rw [if_pos hq]
        have := buf_lt_of_ne_nul source pos1 d hd (by rw [beq_iff_eq] at hq; rw [hq]; decide)
        omega
      · rw [if_neg hq]
        have := buf_le_of_some source pos1 d hd
        omega

theorem lex_block_comment_pos (source : List Char) (st st1 : LexState)
    (hp : st.pos + 1 < source.length)
    (h : lex_block_comment (source ++ [NUL]) st = some st1) :
    st.pos < st1.pos ∧ st1.pos ≤ source.length := by
  unfold lex_block_comment at h
  cases hl : block_comment_loop (List.drop (st.pos + 2) (source ++ [NUL])) (st.pos + 2) st.line
      (int32 (st.column + 2)) with
  | none => rw [hl] at h; cases h
  | some r =>
    obtain ⟨p1, ln1, c1⟩ := r
    rw [hl] at h
    dsimp only at h
    obtain ⟨k1, k2, k3⟩ := block_comment_loop_pos _ _ _ _ _ _ _ hl
    simp only [List.length_drop, List.length_append, List.length_singleton] at k2
    cases hd : (source ++ [NUL])[p1]? with
    | none => rw [hd] at h; cases h
    | some d =>
      rw [hd] at h
      dsimp only at h
      by_cases hq : (d == '*') = true
      · rw [if_pos hq] at h
        injection h with h
        subst h
        dsimp only
        rw [beq_iff_eq] at hq
        subst hq
        have e1 : st.pos + 2 + (p1 - (st.pos + 2)) = p1 := by omega
        have e2 : st.pos + 2 + (p1 - (st.pos + 2) + 1) = p1 + 1 := by omega
        rw [List.getElem?_drop, List.getElem?_drop, e1, e2] at k3
        have := buf_lt_of_ne_nul source (p1 + 1) '/' (k3 hd) (by decide)
        omega
      · rw [if_neg hq] at h
        injection h with h
        subst h
        dsimp only
        omega

theorem lex_line_comment_pos (source : List Char) (st st1 : LexState)
    (hc : (source ++ [NUL])[st.pos]? = some '/')
    (h : lex_line_comment (source ++ [NUL]) st = some st1) :
    st.pos < st1.pos ∧ st1.pos ≤ source.length := by
  unfold lex_line_comment at h
  cases hl : line_comment_loop (List.drop st.pos (source ++ [NUL])) st.pos st.column with
  | none => rw [hl] at h; cases h
  | some r =>
    obtain ⟨p1, c1⟩ := r
    rw [hl] at h
    dsimp only at h
    injection h with h
    subst h
    dsimp only
    obtain ⟨k1, k2, k3⟩ := line_comment_loop_pos _ _ _ _ _ hl
    simp only [List.length_drop, List.length_append, List.length_singleton] at k2
    have hlt := buf_lt_of_ne_nul source st.pos '/' hc (by decide)
    have hh : (List.drop st.pos (source ++ [NUL])).head? = some '/' := by
      rw [List.head?_drop, hc]
    rw [hh] at k3
    have := k3 (by decide)
    omega

theorem lex_integer_pos (source : List Char) (st st1 : LexState) (c : Char)
    (hc : (source ++ [NUL])[st.pos]? = some c) (hn : c ≠ NUL) (hd : isdigit c = true)
    (h : lex_integer (source ++ [NUL]) st = some st1) :
    st.pos < st1.pos ∧ st1.pos ≤ source.length := by
  unfold lex_integer at h
  dsimp only at h
  cases hl : digit_loop (List.drop st.pos (source ++ [NUL])) st.pos st.column with
  | none => rw [hl] at h; cases h
  | some r =>
    obtain ⟨p1, c1⟩ := r
    rw [hl] at h
    dsimp only at h
    rw [Option.ite_none_left_eq_some] at h
    obtain ⟨hg, h⟩ := h
    injection h with h
    subst h
    dsimp only
    obtain ⟨k1, k2, k3⟩ := digit_loop_pos _ _ _ _ _ hl
    simp only [List.length_drop, List.length_append, List.length_singleton] at k2
    have hlt := buf_lt_of_ne_nul source st.pos c hc hn
    have hh : (List.drop st.pos (source ++ [NUL])).head? = some c := by
      rw [List.head?_drop, hc]
    rw [hh] at k3
    have := k3 (by simp [hd])
    omega

theorem lex_word_pos (source : List Char) (st st1 : LexState) (c : Char)
    (hc : (source ++ [NUL])[st.pos]? = some c) (hn : c ≠ NUL)
    (hd : (isalpha c || c == '_') = true)
    (h : lex_word (source ++ [NUL]) st = some st1) :
    st.pos < st1.pos ∧ st1.pos ≤ source.length := by
  unfold lex_word at h
  dsimp only at h
  cases hl : identifier_loop (List.drop st.pos (source ++ [NUL])) st.pos st.column with
  | none => rw [hl] at h; cases h
  | some r =>
    obtain ⟨p1, c1⟩ := r
    rw [hl] at h
    dsimp only at h
    rw [Option.ite_none_left_eq_some] at h
    obtain ⟨hg, h⟩ := h
    injection h with h
    subst h
    dsimp only
    obtain ⟨k1, k2, k3⟩ := identifier_loop_pos _ _ _ _ _ hl
    simp only [List.length_drop, List.length_append, List.length_singleton] at k2
    have hlt := buf_lt_of_ne_nul source st.pos c hc hn
    have hh : (List.drop st.pos (source ++ [NUL])).head? = some c := by
      rw [List.head?_drop, hc]
    rw [hh] at k3
    have hi : is_identifier_char c = true := by
      unfold is_identifier_char isalnum
      rw [Bool.or_eq_true] at hd
      rcases hd with hd | hd
      · simp [hd]
      · simp [hd]
    have := k3 (by simp [hi])
    omega

/-- Every pass through the loop body moves the offset forward and leaves it
inside the buffer. -/
theorem tokenize_body_pos (source : List Char) (c : Char) (st st1 : LexState)
    (hc : (source ++ [NUL])[st.pos]? = some c) (hn : c ≠ NUL)
    (h : tokenize_body (source ++ [NUL]) c st = some st1) :
    st.pos < st1.pos ∧ st1.pos ≤ source.length := by
  have hlt := buf_lt_of_ne_nul source st.pos c hc hn
  rcases tokenize_body_cases _ c st st1 h with
    ⟨-, hb⟩ | ⟨-, hb⟩ | ⟨-, hb⟩ | ⟨-, h1, hb⟩ | ⟨h0, -, hb⟩ | ⟨h0, hb⟩ | ⟨h0, hb⟩ |
      ⟨ty, text, d, -, hd, h1, hb⟩ | hb
  · subst hb
    unfold lex_space
    split <;> (dsimp only; omega)
  · exact lex_string_pos source st st1 hlt hb
  · exact lex_char_pos source st st1 hb
  · have := buf_lt_of_ne_nul source (st.pos + 1) '*' h1 (by decide)
    exact lex_block_comment_pos source st st1 this hb
  · rw [h0] at hc
    exact lex_line_comment_pos source st st1 hc hb
  · exact lex_integer_pos source st st1 c hc hn h0 hb
  · exact lex_word_pos source st st1 c hc hn h0 hb
  · subst hb
    have := buf_lt_of_ne_nul source (st.pos + 1) d h1 hd
    unfold lex_operator
    dsimp only
    omega
  · subst hb
    unfold lex_single
    dsimp only
    omega

/-- The loop of `tokenize` ends within the iteration bound of the model
whenever the bound exceeds the number of characters still to scan. -/
theorem tokenize_loop_fuel (source : List Char) :
    ∀ (fuel : Nat) (st : LexState), st.pos ≤ source.length → source.length - st.pos < fuel →
      tokenize_loop (source ++ [NUL]) fuel st ≠ Outcome.outOfFuel := by
  intro fuel
  induction fuel with
  | zero => intro st _ h; omega
  | succ fuel ih =>
    intro st hp hf
    unfold tokenize_loop
    cases hc : (source ++ [NUL])[st.pos]? with
    | none => simp
    | some c =>
      dsimp only
      by_cases hn : (c != NUL) = true
      · rw [if_pos hn]
        cases hb : tokenize_body (source ++ [NUL]) c st with
        | none => simp
        | some st2 =>
          dsimp only
          have := tokenize_body_pos source c st st2 hc (by simpa using hn) hb
          exact ih st2 this.2 (by omega)
      · rw [if_neg hn]; simp

/-- For a text of at most `INT_MAX` characters the `int` offset reaches the
whole buffer. -/
theorem source_buffer_eq (source : List Char) (h : source.length ≤ INT_MAX) :
    source_buffer source = source ++ [NUL] := by
  unfold source_buffer
  exact List.take_of_length_le (by simp; omega)

/-- For a longer text the buffer the offset reaches is shorter than the text. -/
theorem source_buffer_length (source : List Char) (h : INT_MAX < source.length) :
    (source_buffer source).length ≤ source.length := by
  unfold source_buffer
  rw [List.length_take]
  omega

theorem lex_string_progress (buf : List Char) (st st1 : LexState)
    (h : lex_string buf st = some st1) : st.pos < st1.pos := by
  unfold lex_string at h
  dsimp only at h
  cases hl : string_loop (List.drop (st.pos + 1) buf) (st.pos + 1) st.line
      (int32 (st.column + 1)) with
  | none => rw [hl] at h; cases h
  | some r =>
    obtain ⟨p1, ln1, c1⟩ := r
    rw [hl] at h
    dsimp only at h
    obtain ⟨k1, -⟩ := string_loop_pos _ _ _ _ _ _ _ hl
    cases hd : buf[p1]? with
    | none => rw [hd] at h; cases h
    | some d =>
      rw [hd] at h
      dsimp only at h
      rw [Option.ite_none_left_eq_some] at h
      obtain ⟨hg, h⟩ := h
      injection h with h
      subst h
      dsimp only
      split <;> omega

theorem lex_char_progress (buf : List Char) (st st1 : LexState)
    (h : lex_char buf st = some st1) : st.pos < st1.pos := by
  unfold lex_char at h
  dsimp only at h
  cases he : buf[st.pos + 1]? with
  | none => rw [he] at h; cases h
  | some e =>
    rw [he] at h
    dsimp only at h
    generalize hp1 : (if (e == '\\') = true then st.pos + 1 + 2 else st.pos + 1 + 1) = pos1 at h
    have hp1' : st.pos < pos1 := by
      rw [← hp1]; split <;> omega
    cases hd : buf[pos1]? with
    | none => rw [hd] at h; cases h
    | some d =>
      rw [hd] at h
      dsimp only at h
      injection h with h
      subst h
      dsimp only
      split <;> omega

theorem lex_block_comment_progress (buf : List Char) (st st1 : LexState)
    (h : lex_block_comment buf st = some st1) : st.pos < st1.pos := by
  unfold lex_block_comment at h
  cases hl : block_comment_loop (List.drop (st.pos + 2) buf) (st.pos + 2) st.line
      (int32 (st.column + 2)) with
  | none => rw [hl] at h; cases h
  | some r =>
    obtain ⟨p1, ln1, c1⟩ := r
    rw [hl] at h
    dsimp only at h
    obtain ⟨k1, -, -⟩ := block_comment_loop_pos _ _ _ _ _ _ _ hl
    cases hd : buf[p1]? with
    | none => rw [hd] at h; cases h
    | some d =>
      rw [hd] at h
      dsimp only at h
      by_cases hq : (d == '*') = true
      · rw [if_pos hq] at h
        injection h with h
        subst h
        dsimp only
        omega
      · rw [if_neg hq] at h
        injection h with h
        subst h
        dsimp only
        omega

theorem lex_line_comment_progress (buf : List Char) (st st1 : LexState)
    (hc : buf[st.pos]? = some '/') (h : lex_line_comment buf st = some st1) :
    st.pos < st1.pos := by
  unfold lex_line_comment at h
  cases hl : line_comment_loop (List.drop st.pos buf) st.pos st.column with
  | none => rw [hl] at h; cases h
  | some r =>
    obtain ⟨p1, c1⟩ := r
    rw [hl] at h
    dsimp only at h
    injection h with h
    subst h
    dsimp only
    obtain ⟨-, -, k3⟩ := line_comment_loop_pos _ _ _ _ _ hl
    have hh : (List.drop st.pos buf).head? = some '/' := by
      rw [List.head?_drop, hc]
    rw [hh] at k3
    exact k3 (by decide)

theorem lex_integer_progress (buf : List Char) (st st1 : LexState) (c : Char)
    (hc : buf[st.pos]? = some c) (hd : isdigit c = true)
    (h : lex_integer buf st = some st1) : st.pos < st1.pos := by
  unfold lex_integer at h
  dsimp only at h
  cases hl : digit_loop (List.drop st.pos buf) st.pos st.column with
  | none => rw [hl] at h; cases h
  | some r =>
    obtain ⟨p1, c1⟩ := r
    rw [hl] at h
    dsimp only at h
    rw [Option.ite_none_left_eq_some] at h
    obtain ⟨hg, h⟩ := h
    injection h with h
    subst h
    dsimp only
    obtain ⟨-, -, k3⟩ := digit_loop_pos _ _ _ _ _ hl
    have hh : (List.drop st.pos buf).head? = some c := by
      rw [List.head?_drop, hc]
    rw [hh] at k3
    exact k3 (by simp [hd])

theorem lex_word_progress (buf : List Char) (st st1 : LexState) (c : Char)
    (hc : buf[st.pos]? = some c) (hd : (isalpha c || c == '_') = true)
    (h : lex_word buf st = some st1) : st.pos < st1.pos := by
  unfold lex_word at h
  dsimp only at h
  cases hl : identifier_loop (List.drop st.pos buf) st.pos st.column with
  | none => rw [hl] at h; cases h
  | some r =>
    obtain ⟨p1, c1⟩ := r
    rw [hl] at h
    dsimp only at h
    rw [Option.ite_none_left_eq_some] at h
    obtain ⟨hg, h⟩ := h
    injection h with h
    subst h
    dsimp only
    obtain ⟨-, -, k3⟩ := identifier_loop_pos _ _ _ _ _ hl
    have hh : (List.drop st.pos buf).head? = some c := by
      rw [List.head?_drop, hc]
    rw [hh] at k3
    have hi : is_identifier_char c = true := by
      unfold is_identifier_char isalnum
      rw [Bool.or_eq_true] at hd
      rcases hd with hd | hd
      · simp [hd]
      · simp [hd]
    exact k3 (by simp [hi])

/-- On any buffer, every pass through the loop body moves the offset
forward. -/
theorem tokenize_body_progress (buf : List Char) (c : Char) (st st1 : LexState)
    (hc : buf[st.pos]? = some c) (h : tokenize_body buf c st = some st1) :
    st.pos < st1.pos := by
  rcases tokenize_body_cases _ c st st1 h with
    ⟨-, hb⟩ | ⟨-, hb⟩ | ⟨-, hb⟩ | ⟨-, -, hb⟩ | ⟨h0, -, hb⟩ | ⟨h0, hb⟩ | ⟨h0, hb⟩ |
      ⟨ty, text, d, -, -, -, hb⟩ | hb
  · subst hb
    unfold lex_space
    split <;> (dsimp only; omega)
  · exact lex_string_progress buf st st1 hb
  · exact lex_char_progress buf st st1 hb
  · exact lex_block_comment_progress buf st st1 hb
  · rw [h0] at hc
    exact lex_line_comment_progress buf st st1 hc hb
  · exact lex_integer_progress buf st st1 c hc h0 hb
  · exact lex_word_progress buf st st1 c hc h0 hb
  · subst hb
    unfold lex_operator
    dsimp only
    omega
  · subst hb
    unfold lex_single
    dsimp only
    omega

/-- On any buffer, the loop of `tokenize` ends within the iteration bound of
the model whenever the bound exceeds the number of characters from the offset
to the end of the buffer. -/
theorem tokenize_loop_fuel_any (buf : List Char) :
    ∀ (fuel : Nat) (st : LexState), 0 < fuel → buf.length < st.pos + fuel →
      tokenize_loop buf fuel st ≠ Outcome.outOfFuel := by
  intro fuel
  induction fuel with
  | zero => intro st h _; omega
  | succ fuel ih =>
    intro st _ hf
    unfold tokenize_loop
    cases hc : buf[st.pos]? with
    | none => simp
    | some c =>
      dsimp only
      have hlt : st.pos < buf.length := by
        by_contra hge
        rw [List.getElem?_eq_none (by omega)] at hc
        cases hc
      by_cases hn : (c != NUL) = true
      · rw [if_pos hn]
        cases hb : tokenize_body buf c st with
        | none => simp
        | some st2 =>
          dsimp only
          have := tokenize_body_progress buf c st st2 hc hb
          exact ih st2 (by omega) (by omega)
      · rw [if_neg hn]; simp

/-- The iteration bound of the model is never reached by `tokenize`, whatever the
length of the text: it returns a stream or reads outside the buffer. -/
theorem tokenize_ne_outOfFuel (source : List Char) : tokenize source ≠ Outcome.outOfFuel := by
  have key : tokenize_loop (source_buffer source) (source.length + 1) lex_init ≠
      Outcome.outOfFuel := by
    by_cases hlen : source.length ≤ INT_MAX
    · rw [source_buffer_eq source hlen]
      exact tokenize_loop_fuel source (source.length + 1) lex_init (by simp [lex_init])
        (by simp [lex_init])
    · exact tokenize_loop_fuel_any _ (source.length + 1) lex_init (Nat.succ_pos _)
        (by
          have := source_buffer_length source (by omega)
          simp only [lex_init]
          omega)
  unfold tokenize
  cases hl : tokenize_loop (source_buffer source) (source.length + 1) lex_init with
  | ok st => simp
  | fault => simp
  | outOfFuel => exact absurd hl key

theorem block_comment_loop_cons (a : Char) (l : List Char) (p : Nat) (ln c : Int) :
    block_comment_loop (a :: l) p ln c =
      if (a == '*') = true then
        match l with
        | [] => none
        | d :: _ =>
          if (d == '/') = true then some (p, ln, c)
          else block_comment_loop l (p + 1) ln (int32 (c + 1))
      else if (a != NUL) = true then
        if (a == '\n') = true then block_comment_loop l (p + 1) (int32 (ln + 1)) 1
        else block_comment_loop l (p + 1) ln (int32 (c + 1))
      else some (p, ln, c) := by
  cases l <;> rfl

theorem line_comment_loop_cons (a : Char) (l : List Char) (p : Nat) (c : Int) :
    line_comment_loop (a :: l) p c =
      if (a != '\n' && a != NUL) = true then line_comment_loop l (p + 1) (int32 (c + 1))
      else some (p, c) := by
  rfl

theorem tokenize_loop_nul (buf : List Char) (fuel : Nat) (st : LexState)
    (h : buf[st.pos]? = some NUL) : tokenize_loop buf (fuel + 1) st = Outcome.ok st := by
  unfold tokenize_loop
  rw [h]
  dsimp only
  rw [if_neg (by decide)]

theorem tokenize_loop_step (buf : List Char) (fuel : Nat) (st st1 : LexState) (c : Char)
    (h : buf[st.pos]? = some c) (hc : (c != NUL) = true)
    (hb : tokenize_body buf c st = some st1) :
    tokenize_loop buf (fuel + 1) st = tokenize_loop buf fuel st1 := by
  conv_lhs => unfold tokenize_loop
  rw [h]
  dsimp only
  rw [if_pos hc, hb]

theorem identifier_loop_cons (a : Char) (l : List Char) (p : Nat) (c : Int) :
    identifier_loop (a :: l) p c =
      if is_identifier_char a = true then identifier_loop l (p + 1) (int32 (c + 1))
      else some (p, c) := by
  rfl

theorem string_loop_cons (a : Char) (l : List Char) (p : Nat) (ln c : Int) :
    string_loop (a :: l) p ln c =
      if (a != '"' && a != NUL) = true then
        if (a == '\n') = true then string_loop l (p + 1) (int32 (ln + 1)) 1
        else string_loop l (p + 1) ln (int32 (c + 1))
      else some (p, ln, c) := by
  rfl

theorem digit_loop_cons (a : Char) (l : List Char) (p : Nat) (c : Int) :
    digit_loop (a :: l) p c =
      if isdigit a = true then digit_loop l (p + 1) (int32 (c + 1)) else some (p, c) := by
  rfl

theorem consume_kind (p : Parser) (ty : TokenType) :
    consume p ty =
      if kind_at p 0 = some ty then (true, { p with current_pos := p.current_pos + 1 })
      else (false, p) := by
  unfold kind_at
  rw [consume_eq, Nat.add_zero]
  cases h : p.tokens.tokens[p.current_pos]? with
  | none => simp [h]
  | some t => by_cases ht : t.type = ty <;> simp [h, ht]

theorem kind_at_shift (p : Parser) (k i : Nat) :
    kind_at { p with current_pos := p.current_pos + k } i = kind_at p (k + i) := by
  unfold kind_at
  simp only [Nat.add_assoc]

theorem kind_at_report (p : Parser) (m : String) (i : Nat) :
    kind_at (report p m) i = kind_at p i := rfl

/-- The outcomes of `parse_return_stmt` with what it reports. -/
theorem parse_return_stmt_full (p : Parser) :
    (kind_at p 0 ≠ some TOK_RETURN ∧ parse_return_stmt p = (ASTNode.null, p)) ∨
    (kind_at p 0 = some TOK_RETURN ∧
      (((parse_return_stmt p).1 ≠ ASTNode.null ∧ (parse_return_stmt p).2.stderr = p.stderr) ∨
       ((parse_return_stmt p).1 = ASTNode.null ∧
          (parse_return_stmt p).2.stderr =
            p.stderr ++ ["Error: Expected ';' after return statement\n"]))) := by
  unfold parse_return_stmt
  simp only [consume_kind p]
  by_cases h0 : kind_at p 0 = some TOK_RETURN
  · right
    refine ⟨h0, ?_⟩
    simp only [h0, if_true, Bool.not_true, Bool.false_eq_true, if_false]
    rw [parse_integer_eq]
    dsimp only
    cases h1 : p.tokens.tokens[p.current_pos + 1]? with
    | none =>
      right
      simp [consume_kind, kind_at, h1, report]
    | some t1 =>
      dsimp only
      by_cases ht1 : t1.type = TOK_INTEGER
      · rw [if_pos ht1]
        dsimp only
        rw [consume_kind]
        by_cases h2 : kind_at { p with current_pos := p.current_pos + 1 + 1 } 0 = some TOK_SEMICOLON
        · left
          simp [h2, set_left, create_node]
        · right
          simp [h2, report]
      · rw [if_neg ht1]
        dsimp only
        rw [consume_kind]
        by_cases h2 : kind_at { p with current_pos := p.current_pos + 1 } 0 = some TOK_SEMICOLON
        · left
          simp [h2, set_left, create_node]
        · right
          simp [h2, report]
  · left
    exact ⟨h0, by simp [h0]⟩

/-- The outcomes of `parse_block` with what it reports. -/
theorem parse_block_full (p : Parser) :
    (kind_at p 0 ≠ some TOK_LBRACE ∧ parse_block p = (ASTNode.null, p)) ∨
    (kind_at p 0 = some TOK_LBRACE ∧
      ((kind_at (parse_return_stmt { p with current_pos := p.current_pos + 1 }).2 0 =
            some TOK_RBRACE ∧
          (parse_block p).1 = (parse_return_stmt { p with current_pos := p.current_pos + 1 }).1 ∧
          (parse_block p).2.stderr =
            (parse_return_stmt { p with current_pos := p.current_pos + 1 }).2.stderr) ∨
       (kind_at (parse_return_stmt { p with current_pos := p.current_pos + 1 }).2 0 ≠
            some TOK_RBRACE ∧
          (parse_block p).1 = ASTNode.null ∧
          (parse_block p).2.stderr =
            (parse_return_stmt { p with current_pos := p.current_pos + 1 }).2.stderr ++
              ["Error: Expected '\x7d' to close block\n"]))) := by
  unfold parse_block
  simp only [consume_kind p]
  by_cases h0 : kind_at p 0 = some TOK_LBRACE
  · right
    refine ⟨h0, ?_⟩
    simp only [h0, if_true, Bool.not_true, Bool.false_eq_true, if_false]
    generalize parse_return_stmt { p with current_pos := p.current_pos + 1 } = r
    rw [consume_kind]
    by_cases h1 : kind_at r.2 0 = some TOK_RBRACE
    · left
      simp [h1]
    · right
      simp [h1, report]
  · left
    exact ⟨h0, by simp [h0]⟩

/-- The outcomes of `parse_function` with what it reports. -/
theorem parse_function_full (p : Parser) :
    (kind_at p 0 ≠ some TOK_INT ∧ parse_function p = (ASTNode.null, p)) ∨
    (kind_at p 0 = some TOK_INT ∧
      ((∃ m, m ∈ ["Error: Expected function name\n", "Error: Expected '(' after function name\n",
            "Error: Expected ')' after parameters\n"] ∧
          (parse_function p).1 = ASTNode.null ∧
          (parse_function p).2.stderr = p.stderr ++ [m] ∧
          ¬ (kind_at p 1 = some TOK_IDENTIFIER ∧ kind_at p 2 = some TOK_LPAREN ∧
              kind_at p 3 = some TOK_RPAREN)) ∨
       (kind_at p 1 = some TOK_IDENTIFIER ∧ kind_at p 2 = some TOK_LPAREN ∧
          kind_at p 3 = some TOK_RPAREN ∧
          (parse_function p).1.left =
            (parse_block { p with current_pos := p.current_pos + 4 }).1 ∧
          (parse_function p).1 ≠ ASTNode.null ∧
          (parse_function p).2.stderr =
            (parse_block { p with current_pos := p.current_pos + 4 }).2.stderr))) := by
  unfold parse_function
  simp only [consume_kind p]
  by_cases h0 : kind_at p 0 = some TOK_INT
  · right
    refine ⟨h0, ?_⟩
    simp only [h0, if_true, Bool.not_true, Bool.false_eq_true, if_false]
    rw [current_token_eq]
    dsimp only
    cases h1 : p.tokens.tokens[p.current_pos + 1]? with
    | none =>
      left
      exact ⟨_, by simp, rfl, rfl, by simp [kind_at, h1]⟩
    | some t1 =>
      dsimp only
      by_cases ht1 : t1.type = TOK_IDENTIFIER
      · rw [if_neg (by simpa using ht1)]
        have k1 : kind_at p 1 = some TOK_IDENTIFIER := by simp [kind_at, h1, ht1]
        rw [advance_eq]
        simp only [h1]
        rw [consume_kind]
        by_cases h2 : kind_at { p with current_pos := p.current_pos + 1 + 1 } 0 = some TOK_LPAREN
        · have k2 : kind_at p 2 = some TOK_LPAREN := by
            simpa [kind_at, Nat.add_assoc] using h2
          simp only [h2, if_true, Bool.not_true, Bool.false_eq_true, if_false]
          rw [consume_kind]
          by_cases h3 : kind_at { p with current_pos := p.current_pos + 1 + 1 + 1 } 0 =
              some TOK_RPAREN
          · have k3 : kind_at p 3 = some TOK_RPAREN := by
              simpa [kind_at, Nat.add_assoc] using h3
            right
            simp only [h3, if_true, Bool.not_true, Bool.false_eq_true, if_false]
            refine ⟨k1, k2, k3, ?_, ?_, ?_⟩
            · simp [set_left, create_node, ASTNode.left, Nat.add_assoc]
            · simp [set_left, create_node]
            · simp [Nat.add_assoc]
          · have k3 : ¬ kind_at p 3 = some TOK_RPAREN := by
              simpa [kind_at, Nat.add_assoc] using h3
            left
            exact ⟨"Error: Expected ')' after parameters\n", by simp, by simp [h3],
              by simp [h3, report],
              fun h => k3 h.2.2⟩
        · have k2 : ¬ kind_at p 2 = some TOK_LPAREN := by
            simpa [kind_at, Nat.add_assoc] using h2
          left
          exact ⟨"Error: Expected '(' after function name\n", by simp, by simp [h2],
            by simp [h2, report],
            fun h => k2 h.2.1⟩
      · rw [if_pos (by simpa using ht1)]
        left
        exact ⟨_, by simp, rfl, rfl, by simp [kind_at, h1, ht1]⟩
  · left
    exact ⟨h0, by simp [h0]⟩

theorem parse_stderr_eq (ts : TokenStream) (fn : Option String) :
    parse_stderr ts fn = (parse_function (parser_create ts fn)).2.stderr := by
  simp [parse_stderr, parser_parse, parse_program]

theorem kind_at_create (ts : TokenStream) (fn : Option String) (k i : Nat) :
    kind_at { parser_create ts fn with current_pos := (parser_create ts fn).current_pos + k } i =
      (kinds ts)[k + i]? := by
  simp [kind_at, parser_create, kinds, List.getElem?_map]

theorem kind_at_create_zero (ts : TokenStream) (fn : Option String) (i : Nat) :
    kind_at (parser_create ts fn) i = (kinds ts)[i]? := by
  simp [kind_at, parser_create, kinds, List.getElem?_map]

/-- The diagnostics one parse can write. -/
theorem parse_stderr_cases (ts : TokenStream) (fn : Option String) :
    parse_stderr ts fn ∈
      [[], ["Error: Expected function name\n"], ["Error: Expected '(' after function name\n"],
       ["Error: Expected ')' after parameters\n"],
       ["Error: Expected ';' after return statement\n"],
       ["Error: Expected '\x7d' to close block\n"],
       ["Error: Expected ';' after return statement\n",
        "Error: Expected '\x7d' to close block\n"]] := by
  rw [parse_stderr_eq]
  have e0 : (parser_create ts fn).stderr = [] := rfl
  rcases parse_function_full (parser_create ts fn) with ⟨-, h⟩ | ⟨-, ⟨m, hm, -, h, -⟩ | ⟨-, -, -, -, -, h⟩⟩
  · rw [h, e0]; simp
  · rw [h, e0]
    simp only [List.mem_cons, List.mem_singleton, List.not_mem_nil, or_false] at hm
    rcases hm with rfl | rfl | rfl <;> simp
  · rw [h]
    rcases parse_block_full { parser_create ts fn with
        current_pos := (parser_create ts fn).current_pos + 4 } with
      ⟨-, hb⟩ | ⟨-, ⟨-, -, hb⟩ | ⟨-, -, hb⟩⟩
    · rw [hb]; simp [e0]
    · rw [hb]
      rcases parse_return_stmt_full { parser_create ts fn with
          current_pos := (parser_create ts fn).current_pos + 4 + 1 } with
        ⟨-, hr⟩ | ⟨-, ⟨-, hr⟩ | ⟨-, hr⟩⟩
      · rw [hr]; simp [e0]
      · rw [hr]; simp [e0]
      · rw [hr]; simp [e0]
    · rw [hb]
      rcases parse_return_stmt_full { parser_create ts fn with
          current_pos := (parser_create ts fn).current_pos + 4 + 1 } with
        ⟨-, hr⟩ | ⟨-, ⟨-, hr⟩ | ⟨-, hr⟩⟩
      · rw [hr]; simp [e0]
      · rw [hr]; simp [e0]
      · rw [hr]; simp [e0]

/-- A parse that writes nothing and yields no body, on a stream that begins
with `int`: the `{` is missing, or `{` is directly followed by `}`. -/
theorem parse_silent_shape (ts : TokenStream) (fn : Option String)
    (h0 : (kinds ts)[0]? = some TOK_INT)
    (hb : (parse_tree ts fn).left.left = ASTNode.null)
    (he : parse_stderr ts fn = []) :
    [TOK_INT, TOK_IDENTIFIER, TOK_LPAREN, TOK_RPAREN] <+: kinds ts ∧
      ((kinds ts)[4]? ≠ some TOK_LBRACE ∨ (kinds ts)[5]? = some TOK_RBRACE) := by
  rw [parse_stderr_eq] at he
  rw [parse_tree_eq] at hb
  change (parse_function (parser_create ts fn)).1.left = ASTNode.null at hb
  have e0 : (parser_create ts fn).stderr = [] := rfl
  rcases parse_function_full (parser_create ts fn) with
    ⟨hk, -⟩ | ⟨-, ⟨m, -, -, h, -⟩ | ⟨k1, k2, k3, hl, -, h⟩⟩
  · rw [kind_at_create_zero] at hk
    exact absurd h0 hk
  · rw [h, e0] at he
    simp at he
  · rw [kind_at_create_zero] at k1 k2 k3
    have hp : [TOK_INT, TOK_IDENTIFIER, TOK_LPAREN, TOK_RPAREN] <+: kinds ts := by
      unfold kinds at h0 k1 k2 k3 ⊢
      apply kinds_prefix_of_getElem?
      intro i hi
      simp only [List.length_cons, List.length_nil, Nat.reduceAdd] at hi
      rw [List.getElem?_map] at h0 k1 k2 k3
      interval_cases i <;> simp [*]
    refine ⟨hp, ?_⟩
    rw [hl] at hb
    rw [h] at he
    rcases parse_block_full { parser_create ts fn with
        current_pos := (parser_create ts fn).current_pos + 4 } with
      ⟨hk, -⟩ | ⟨-, ⟨hk, hb1, hb2⟩ | ⟨-, -, hb2⟩⟩
    · left
      rw [kind_at_create] at hk
      exact hk
    · right
      rw [hb1] at hb
      rw [hb2] at he
      rcases parse_return_stmt_full { parser_create ts fn with
          current_pos := (parser_create ts fn).current_pos + 4 + 1 } with
        ⟨-, hr⟩ | ⟨-, ⟨hr, -⟩ | ⟨-, hr⟩⟩
      · rw [hr] at hk
        have := kind_at_create ts fn 5 0
        simp only [Nat.add_assoc, Nat.reduceAdd] at this hk
        rw [this] at hk
        exact hk
      · exact absurd hb hr
      · rw [hr] at he
        simp at he
    · rw [hb2] at he
      simp at he

/-- On a stream that begins `int NAME ( )` with the `{` missing, or with `{`
directly followed by `}`, the parse writes nothing. -/
theorem parse_silent_of_shape (ts : TokenStream) (fn : Option String)
    (hp : [TOK_INT, TOK_IDENTIFIER, TOK_LPAREN, TOK_RPAREN] <+: kinds ts)
    (hc : (kinds ts)[4]? ≠ some TOK_LBRACE ∨ (kinds ts)[5]? = some TOK_RBRACE) :
    parse_stderr ts fn = [] := by
  rw [parse_stderr_eq]
  have e0 : (parser_create ts fn).stderr = [] := rfl
  have hk : ∀ i, i < 4 →
      (kinds ts)[i]? = [TOK_INT, TOK_IDENTIFIER, TOK_LPAREN, TOK_RPAREN][i]? := by
    intro i hi
    obtain ⟨r, hr⟩ := hp
    rw [← hr, List.getElem?_append_left (by simpa using hi)]
  have k0 := hk 0 (by omega)
  have k1 := hk 1 (by omega)
  have k2 := hk 2 (by omega)
  have k3 := hk 3 (by omega)
  simp only [List.getElem?_cons_zero, List.getElem?_cons_succ] at k0 k1 k2 k3
  rcases parse_function_full (parser_create ts fn) with
    ⟨hk0, -⟩ | ⟨-, ⟨m, -, -, -, hn⟩ | ⟨-, -, -, -, -, h⟩⟩
  · rw [kind_at_create_zero] at hk0
    exact absurd k0 hk0
  · simp only [kind_at_create_zero] at hn
    exact absurd ⟨k1, k2, k3⟩ hn
  · rw [h]
    rcases parse_block_full { parser_create ts fn with
        current_pos := (parser_create ts fn).current_pos + 4 } with
      ⟨-, hb⟩ | ⟨hl, hb⟩
    · rw [hb]; rfl
    · rw [kind_at_create] at hl
      rcases hc with hc | hc
      · exact absurd hl hc
      · have k5 := kind_at_create ts fn 5 0
        simp only [Nat.add_zero] at k5
        rcases parse_return_stmt_full { parser_create ts fn with
            current_pos := (parser_create ts fn).current_pos + 4 + 1 } with
          ⟨-, hr⟩ | ⟨hret, -⟩
        · rw [hr] at hb
          rcases hb with ⟨-, -, hb⟩ | ⟨hne, -, -⟩
          · rw [hb]; rfl
          · simp only [Nat.add_assoc, Nat.reduceAdd] at hne
            rw [k5] at hne
            exact absurd hc hne
        · simp only [Nat.add_assoc, Nat.reduceAdd] at hret
          rw [k5, hc] at hret
          cases hret

theorem token_stream_peek_eq (s : TokenStream) :
    token_stream_peek s = s.tokens[s.current]? := by
  unfold token_stream_peek TokenStream.count
  split
  · rename_i h
    exact (List.getElem?_eq_none h).symm
  · rfl

theorem token_stream_next_fst (s : TokenStream) :
    (token_stream_next s).1 = s.tokens[s.current]? := by
  unfold token_stream_next TokenStream.count
  split
  · rename_i h
    exact (List.getElem?_eq_none h).symm
  · rfl

theorem token_stream_next_snd (s : TokenStream) :
    (token_stream_next s).2 =
      { s with current := if s.current < s.count then s.current + 1 else s.current } := by
  unfold token_stream_next
  by_cases h : s.current ≥ s.count
  · rw [if_pos h, if_neg (by omega)]
  · rw [if_neg h, if_pos (by omega)]

theorem next_calls_spec : ∀ (k : Nat) (s : TokenStream), s.current ≤ s.count →
    (next_calls k s).1 = (List.range k).map (fun i => s.tokens[s.current + i]?) ∧
      (next_calls k s).2 = { s with current := min (s.current + k) s.count } := by
  intro k
  induction k with
  | zero =>
    intro s h
    refine ⟨rfl, ?_⟩
    simp only [next_calls, Nat.add_zero]
    rw [Nat.min_eq_left h]
  | succ k ih =>
    intro s h
    have hle : (token_stream_next s).2.current ≤ (token_stream_next s).2.count := by
      rw [token_stream_next_snd]
      simp only [TokenStream.count] at h ⊢
      split <;> omega
    obtain ⟨i1, i2⟩ := ih (token_stream_next s).2 hle
    simp only [next_calls]
    rw [i1, i2, token_stream_next_fst, token_stream_next_snd]
    constructor
    · rw [List.range_succ_eq_map, List.map_cons, List.map_map]
      simp only [Nat.add_zero, List.cons.injEq, true_and]
      apply List.map_congr_left
      intro i _
      simp only [Function.comp]
      by_cases hc : s.current < s.count
      · rw [if_pos hc]
        congr 1
        omega
      · rw [if_neg hc]
        simp only [TokenStream.count] at hc h
        rw [List.getElem?_eq_none (by omega), List.getElem?_eq_none (by omega)]
    · simp only [TokenStream.count] at h ⊢
      congr 1
      split <;> omega

theorem concat_text_append (l1 l2 : List String) :
    concat_text (l1 ++ l2) = concat_text l1 ++ concat_text l2 := by
  induction l1 with
  | nil => simp [concat_text]
  | cons a l ih =>
    simp only [concat_text, List.cons_append, List.foldr_cons] at ih ⊢
    rw [ih, String.append_assoc]

theorem node_line_eq (type : NodeType) (token : Token) :
    node_line type token = kind_label type ++ node_payload type token ++ "\n" := by
  cases type <;> simp [node_line, kind_label, node_payload]

theorem ast_print_records (t : ASTNode) : ∀ (k d : Nat),
    (∀ n ∈ preorder t d, k + n.1 ≤ INT_MAX) →
    ast_print t ((k + d : Nat) : Int) = concat_text ((preorder t d).map (node_record k)) := by
  induction t with
  | null => intro k d _; rfl
  | node type token left right ihl ihr =>
    intro k d hb
    have hl : ast_print left (int32 (((k + d : Nat) : Int) + 1)) =
        concat_text ((preorder left (d + 1)).map (node_record k)) := by
      cases left with
      | null => rfl
      | node ty1 tok1 l1 r1 =>
        have hb1 : ∀ n ∈ preorder (ASTNode.node ty1 tok1 l1 r1) (d + 1), k + n.1 ≤ INT_MAX :=
          fun n hn => hb n (by
            rw [preorder]
            exact List.mem_cons_of_mem _ (List.mem_append_left _ hn))
        have hk := hb1 (d + 1, ty1, tok1) (by rw [preorder]; exact List.mem_cons_self _ _)
        have e : int32 (((k + d : Nat) : Int) + 1) = ((k + (d + 1) : Nat) : Int) := by
          rw [← int32_natCast (k + (d + 1)) hk]
          congr 1
        rw [e]
        exact ihl k (d + 1) hb1
    have hr : ast_print right (int32 (((k + d : Nat) : Int) + 1)) =
        concat_text ((preorder right (d + 1)).map (node_record k)) := by
      cases right with
      | null => rfl
      | node ty1 tok1 l1 r1 =>
        have hb1 : ∀ n ∈ preorder (ASTNode.node ty1 tok1 l1 r1) (d + 1), k + n.1 ≤ INT_MAX :=
          fun n hn => hb n (by
            rw [preorder]
            exact List.mem_cons_of_mem _ (List.mem_append_right _ hn))
        have hk := hb1 (d + 1, ty1, tok1) (by rw [preorder]; exact List.mem_cons_self _ _)
        have e : int32 (((k + d : Nat) : Int) + 1) = ((k + (d + 1) : Nat) : Int) := by
          rw [← int32_natCast (k + (d + 1)) hk]
          congr 1
        rw [e]
        exact ihr k (d + 1) hb1
    simp only [ast_print, preorder, List.map_cons, List.map_append]
    rw [hl, hr]
    have c : ∀ (a : String) (l : List String), concat_text (a :: l) = a ++ concat_text l :=
      fun _ _ => rfl
    rw [c, concat_text_append, node_record, print_indent, node_line_eq]
    simp only [Int.toNat_ofNat, String.append_assoc]

theorem newline_count_append (a b : String) :
    newline_count (a ++ b) = newline_count a + newline_count b := by
  simp [newline_count, String.data_append]

theorem newline_count_records (k : Nat) (l : List (Nat × NodeType × Token))
    (h : ∀ n ∈ l, newline_count (node_payload n.2.1 n.2.2) = 0) :
    newline_count (concat_text (l.map (node_record k))) = l.length := by
  induction l with
  | nil => rfl
  | cons n l ih =>
    have c : ∀ (a : String) (l : List String), concat_text (a :: l) = a ++ concat_text l :=
      fun _ _ => rfl
    rw [List.map_cons, c, List.length_cons, newline_count_append,
      ih (fun m hm => h m (List.mem_cons_of_mem _ hm))]
    have hn := h n (List.mem_cons_self _ _)
    have hl : newline_count (kind_label n.2.1) = 0 := by
      cases n.2.1 <;> decide
    simp only [node_record, newline_count_append, hn, hl]
    simp [newline_count, List.count_replicate]
    omega

/-- A pass of the loop body leaves the read cursor at 0. -/
theorem streamStep_current (s s1 : TokenStream) (h : s.current = 0) (hs : StreamStep s s1) :
    s1.current = 0 := by
  rcases hs with rfl | ⟨ty, v, l, col, -, rfl⟩
  · exact h
  · exact h

/-- The read cursor of the stream `tokenize` returns is 0. -/
theorem tokenize_stream_current (source : List Char) (st : LexState)
    (h : tokenize source = Outcome.ok st) : st.stream.current = 0 := by
  unfold tokenize at h
  cases hl : tokenize_loop (source_buffer source) (source.length + 1) lex_init with
  | fault => rw [hl] at h; cases h
  | outOfFuel => rw [hl] at h; cases h
  | ok st0 =>
    rw [hl] at h
    injection h with h
    subst h
    exact tokenize_loop_stream _ (fun s => s.current = 0) streamStep_current _ lex_init st0 rfl hl

/-- Reading a list at the indices below its length and `j` indices beyond. -/
theorem range_map_getElem? {α : Type} (l : List α) (j : Nat) :
    (List.range (l.length + j)).map (fun i => l[i]?) = l.map some ++ List.replicate j none := by
  apply List.ext_getElem?
  intro i
  rw [List.getElem?_map]
  by_cases h1 : i < l.length
  · rw [List.getElem?_range (by omega), List.getElem?_append_left (by simpa using h1),
      List.getElem?_map, List.getElem?_eq_getElem h1]
    simp only [Option.map_some', List.getElem?_eq_getElem h1]
  · by_cases h2 : i < l.length + j
    · rw [List.getElem?_range h2, List.getElem?_append_right (by simpa using h1),
        List.getElem?_replicate, List.length_map, if_pos (by omega)]
      simp only [Option.map_some']
      rw [List.getElem?_eq_none (by omega)]
    · rw [List.getElem?_eq_none (by simpa using h2), List.getElem?_eq_none (by simp; omega)]
      rfl

/-- Both drivers return 0 for every text that `tokenize` accepts. -/
theorem compile_status (filename : String) (source : List Char) (st : LexState)
    (h : tokenize source = Outcome.ok st) :
    (∃ r, compile_file filename (some source) = Outcome.ok r ∧ r.status = 0) ∧
    (∃ r, compile_file_quiet filename (some source) = Outcome.ok r ∧ r.status = 0) := by
  constructor
  · simp only [compile_file, h, parse_tree_eq]
    exact ⟨_, rfl, rfl⟩
  · simp only [compile_file_quiet, h, parse_tree_eq]
    exact ⟨_, rfl, rfl⟩

theorem kind_label_head (ty : NodeType) : (kind_label ty).data.head? ≠ some ' ' := by
  cases ty <;> decide

/-! ## Cursor, totality and position lemmas -/

theorem cursorStep_refl (p : Parser) : CursorStep p p := ⟨rfl, Nat.le_refl _, fun h => h⟩

theorem cursorStep_trans (p q r : Parser) (h1 : CursorStep p q) (h2 : CursorStep q r) :
    CursorStep p r := by
  obtain ⟨a1, b1, c1⟩ := h1
  obtain ⟨a2, b2, c2⟩ := h2
  exact ⟨a2.trans a1, Nat.le_trans b1 b2, fun h => c2 (c1 h)⟩

theorem cursorStep_report (p q : Parser) (m : String) (h : CursorStep p q) :
    CursorStep p (report q m) := h

theorem cursorStep_advance (p : Parser) : CursorStep p (advance p) := by
  unfold advance
  split
  · rename_i h
    exact ⟨rfl, Nat.le_succ _, fun _ => h⟩
  · exact cursorStep_refl p

theorem cursorStep_consume (p : Parser) (ty : TokenType) : CursorStep p (consume p ty).2 := by
  unfold consume
  split
  · exact cursorStep_advance p
  · exact cursorStep_refl p

theorem cursorStep_parse_integer (p : Parser) : CursorStep p (parse_integer p).2 := by
  unfold parse_integer
  split
  · exact cursorStep_refl p
  · split
    · exact cursorStep_refl p
    · exact cursorStep_advance p

theorem cursorStep_parse_return_stmt (p : Parser) : CursorStep p (parse_return_stmt p).2 := by
  have h1 := cursorStep_consume p TOK_RETURN
  have h2 := cursorStep_trans _ _ _ h1 (cursorStep_parse_integer (consume p TOK_RETURN).2)
  have h3 := cursorStep_trans _ _ _ h2
    (cursorStep_consume (parse_integer (consume p TOK_RETURN).2).2 TOK_SEMICOLON)
  unfold parse_return_stmt
  dsimp only
  split
  · exact h1
  · split
    · exact cursorStep_report _ _ _ h3
    · exact h3

theorem cursorStep_parse_block (p : Parser) : CursorStep p (parse_block p).2 := by
  have h1 := cursorStep_consume p TOK_LBRACE
  have h2 := cursorStep_trans _ _ _ h1 (cursorStep_parse_return_stmt (consume p TOK_LBRACE).2)
  have h3 := cursorStep_trans _ _ _ h2
    (cursorStep_consume (parse_return_stmt (consume p TOK_LBRACE).2).2 TOK_RBRACE)
  unfold parse_block
  dsimp only
  split
  · exact h1
  · split
    · exact cursorStep_report _ _ _ h3
    · exact h3

theorem cursorStep_parse_function (p : Parser) : CursorStep p (parse_function p).2 := by
  have h1 := cursorStep_consume p TOK_INT
  have h2 := cursorStep_trans _ _ _ h1 (cursorStep_advance (consume p TOK_INT).2)
  have h3 := cursorStep_trans _ _ _ h2
    (cursorStep_consume (advance (consume p TOK_INT).2) TOK_LPAREN)
  have h4 := cursorStep_trans _ _ _ h3
    (cursorStep_consume (consume (advance (consume p TOK_INT).2) TOK_LPAREN).2 TOK_RPAREN)
  have h5 := cursorStep_trans _ _ _ h4 (cursorStep_parse_block
    (consume (consume (advance (consume p TOK_INT).2) TOK_LPAREN).2 TOK_RPAREN).2)
  unfold parse_function
  dsimp only
  split
  · exact h1
  · split
    · exact cursorStep_report _ _ _ h1
    · split
      · exact cursorStep_report _ _ _ h1
      · split
        · exact cursorStep_report _ _ _ h3
        · split
          · exact cursorStep_report _ _ _ h4
          · exact h5

theorem cursorStep_parse_program (p : Parser) : CursorStep p (parse_program p).2 :=
  cursorStep_parse_function p

/-- After a successful `consume` the token before the cursor is the one just
passed: the read at `current_pos - 1` of `parse_return_stmt` is inside the
stream. -/
theorem consume_passed (p : Parser) (ty : TokenType) (h : (consume p ty).1 = true) :
    ∃ t, (consume p ty).2.tokens.tokens[(consume p ty).2.current_pos - 1]? = some t ∧
      t.type = ty := by
  cases h0 : p.tokens.tokens[p.current_pos]? with
  | none =>
    rw [consume_none p ty h0] at h
    cases h
  | some t =>
    by_cases ht : t.type = ty
    · rw [consume_some p ty t h0 ht]
      exact ⟨t, by simpa using h0, ht⟩
    · rw [consume_other p ty t h0 ht] at h
      cases h

/-- The chain below a function node: absent, or a return statement whose
value is absent or an integer leaf. -/
theorem parse_return_stmt_shape (p : Parser) :
    (parse_return_stmt p).1 = ASTNode.null ∨
      ∃ ret v, ret.type = TOK_RETURN ∧
        (parse_return_stmt p).1 = ASTNode.node NODE_RETURN_STMT ret v ASTNode.null ∧
        (v = ASTNode.null ∨ ∃ i, i.type = TOK_INTEGER ∧
          v = ASTNode.node NODE_INTEGER_LITERAL i ASTNode.null ASTNode.null) := by
  rcases parse_return_stmt_cases p with h | ⟨t0, t1, -, h0, -, -, h⟩ |
    ⟨t0, t1, t2, -, h0, -, h1, -, -, h⟩
  · exact Or.inl h
  · exact Or.inr ⟨t0, _, h0, by rw [h], Or.inl rfl⟩
  · exact Or.inr ⟨t0, _, h0, by rw [h], Or.inr ⟨t1, h1, rfl⟩⟩

theorem parse_block_shape (p : Parser) :
    (parse_block p).1 = ASTNode.null ∨
      ∃ ret v, ret.type = TOK_RETURN ∧
        (parse_block p).1 = ASTNode.node NODE_RETURN_STMT ret v ASTNode.null ∧
        (v = ASTNode.null ∨ ∃ i, i.type = TOK_INTEGER ∧
          v = ASTNode.node NODE_INTEGER_LITERAL i ASTNode.null ASTNode.null) := by
  rcases parse_block_cases p with h | ⟨tb, te, -, -, hne, -, -, h⟩
  · exact Or.inl h
  · rw [h]
    rcases parse_return_stmt_shape { p with current_pos := p.current_pos + 1 } with h1 | h1
    · exact absurd h1 hne
    · exact Or.inr h1

theorem string_loop_total : ∀ (l : List Char), NUL ∈ l → ∀ (p : Nat) (ln c : Int),
    ∃ r, string_loop l p ln c = some r := by
  intro l
  induction l with
  | nil => intro h; cases h
  | cons a l ih =>
    intro h p ln c
    rw [string_loop_cons]
    by_cases ha : (a != '"' && a != NUL) = true
    · rw [if_pos ha]
      have hl : NUL ∈ l := by
        rcases List.mem_cons.mp h with e | e
        · subst e; simp at ha
        · exact e
      by_cases hn : (a == '\n') = true
      · rw [if_pos hn]; exact ih hl _ _ _
      · rw [if_neg hn]; exact ih hl _ _ _
    · rw [if_neg ha]; exact ⟨_, rfl⟩

theorem block_comment_loop_total : ∀ (l : List Char), NUL ∈ l → ∀ (p : Nat) (ln c : Int),
    ∃ r, block_comment_loop l p ln c = some r := by
  intro l
  induction l with
  | nil => intro h; cases h
  | cons a l ih =>
    intro h p ln c
    by_cases hn : a = NUL
    · subst hn
      cases l <;> exact ⟨_, rfl⟩
    · have hl : NUL ∈ l := by
        rcases List.mem_cons.mp h with e | e
        · exact absurd e.symm hn
        · exact e
      cases l with
      | nil => cases hl
      | cons d l =>
        rw [block_comment_loop_cons]
        by_cases h1 : (a == '*') = true
        · rw [if_pos h1]
          dsimp only
          by_cases h2 : (d == '/') = true
          · rw [if_pos h2]; exact ⟨_, rfl⟩
          · rw [if_neg h2]; exact ih hl _ _ _
        · rw [if_neg h1, if_pos (by simpa using hn)]
          by_cases h3 : (a == '\n') = true
          · rw [if_pos h3]; exact ih hl _ _ _
          · rw [if_neg h3]; exact ih hl _ _ _

theorem line_comment_loop_total : ∀ (l : List Char), NUL ∈ l → ∀ (p : Nat) (c : Int),
    ∃ r, line_comment_loop l p c = some r := by
  intro l
  induction l with
  | nil => intro h; cases h
  | cons a l ih =>
    intro h p c
    rw [line_comment_loop_cons]
    by_cases ha : (a != '\n' && a != NUL) = true
    · rw [if_pos ha]
      have hl : NUL ∈ l := by
        rcases List.mem_cons.mp h with e | e
        · subst e; simp at ha
        · exact e
      exact ih hl _ _
    · rw [if_neg ha]; exact ⟨_, rfl⟩

theorem digit_loop_total : ∀ (l : List Char), NUL ∈ l → ∀ (p : Nat) (c : Int),
    ∃ r, digit_loop l p c = some r := by
  intro l
  induction l with
  | nil => intro h; cases h
  | cons a l ih =>
    intro h p c
    rw [digit_loop_cons]
    by_cases ha : isdigit a = true
    · rw [if_pos ha]
      have hl : NUL ∈ l := by
        rcases List.mem_cons.mp h with e | e
        · subst e; exact absurd ha (by decide)
        · exact e
      exact ih hl _ _
    · rw [if_neg ha]; exact ⟨_, rfl⟩

theorem identifier_loop_total : ∀ (l : List Char), NUL ∈ l → ∀ (p : Nat) (c : Int),
    ∃ r, identifier_loop l p c = some r := by
  intro l
  induction l with
  | nil => intro h; cases h
  | cons a l ih =>
    intro h p c
    rw [identifier_loop_cons]
    by_cases ha : is_identifier_char a = true
    · rw [if_pos ha]
      have hl : NUL ∈ l := by
        rcases List.mem_cons.mp h with e | e
        · subst e; exact absurd ha (by decide)
        · exact e
      exact ih hl _ _
    · rw [if_neg ha]; exact ⟨_, rfl⟩

/-- The terminator is in every suffix of the buffer that starts inside it. -/
theorem nul_mem_drop (source : List Char) (k : Nat) (h : k ≤ source.length) :
    NUL ∈ (source ++ [NUL]).drop k := by
  rw [List.drop_append_of_le_length h]
  simp

theorem buf_some_of_le (source : List Char) (i : Nat) (h : i ≤ source.length) :
    ∃ d, (source ++ [NUL])[i]? = some d :=
  ⟨_, List.getElem?_eq_getElem (by simp; omega)⟩

/-- The string literal branch reads inside the buffer. -/
theorem lex_string_total (source : List Char) (hlen : source.length < INT_MAX)
    (st : LexState) (hp : st.pos < source.length) :
    ∃ st1, lex_string (source ++ [NUL]) st = some st1 := by
  obtain ⟨⟨p1, ln1, c1⟩, hl⟩ := string_loop_total _ (nul_mem_drop source (st.pos + 1) hp)
    (st.pos + 1) st.line (int32 (st.column + 1))
  have hb := (string_loop_pos _ _ _ _ _ _ _ hl).2
  simp only [List.length_drop, List.length_append, List.length_singleton] at hb
  obtain ⟨d, hd⟩ := buf_some_of_le source p1 (by omega)
  unfold lex_string
  dsimp only
  rw [hl]
  dsimp only
  rw [hd]
  dsimp only
  have hg : ¬ INT_MAX < (if (d == '"') = true then p1 + 1 else p1) - st.pos + 1 := by
    by_cases hq : (d == '"') = true
    · rw [if_pos hq]
      have := buf_lt_of_ne_nul source p1 d hd (by rw [beq_iff_eq] at hq; rw [hq]; decide)
      omega
    · rw [if_neg hq]; omega
  rw [if_neg hg]
  exact ⟨_, rfl⟩

/-- The block comment branch reads inside the buffer. -/
theorem lex_block_comment_total (source : List Char) (st : LexState)
    (hp : st.pos + 1 < source.length) :
    ∃ st1, lex_block_comment (source ++ [NUL]) st = some st1 := by
  obtain ⟨⟨p1, ln1, c1⟩, hl⟩ := block_comment_loop_total _ (nul_mem_drop source (st.pos + 2) hp)
    (st.pos + 2) st.line (int32 (st.column + 2))
  have hb := (block_comment_loop_pos _ _ _ _ _ _ _ hl).2.1
  simp only [List.length_drop, List.length_append, List.length_singleton] at hb
  obtain ⟨d, hd⟩ := buf_some_of_le source p1 (by omega)
  unfold lex_block_comment
  rw [hl]
  dsimp only
  rw [hd]
  dsimp only
  split <;> exact ⟨_, rfl⟩

theorem lex_line_comment_total (source : List Char) (st : LexState)
    (hp : st.pos ≤ source.length) :
    ∃ st1, lex_line_comment (source ++ [NUL]) st = some st1 := by
  obtain ⟨⟨p1, c1⟩, hl⟩ := line_comment_loop_total _ (nul_mem_drop source st.pos hp)
    st.pos st.column
  unfold lex_line_comment
  rw [hl]
  exact ⟨_, rfl⟩

theorem lex_integer_total (source : List Char) (hlen : source.length < INT_MAX)
    (st : LexState) (hp : st.pos ≤ source.length) :
    ∃ st1, lex_integer (source ++ [NUL]) st = some st1 := by
  obtain ⟨⟨p1, c1⟩, hl⟩ := digit_loop_total _ (nul_mem_drop source st.pos hp)
    st.pos st.column
  have hb := (digit_loop_pos _ _ _ _ _ hl).2.1
  simp only [List.length_drop, List.length_append, List.length_singleton] at hb
  unfold lex_integer
  dsimp only
  rw [hl]
  dsimp only
  rw [if_neg (by omega)]
  exact ⟨_, rfl⟩

theorem lex_word_total (source : List Char) (hlen : source.length < INT_MAX)
    (st : LexState) (hp : st.pos ≤ source.length) :
    ∃ st1, lex_word (source ++ [NUL]) st = some st1 := by
  obtain ⟨⟨p1, c1⟩, hl⟩ := identifier_loop_total _ (nul_mem_drop source st.pos hp)
    st.pos st.column
  have hb := (identifier_loop_pos _ _ _ _ _ hl).2.1
  simp only [List.length_drop, List.length_append, List.length_singleton] at hb
  unfold lex_word
  dsimp only
  rw [hl]
  dsimp only
  rw [if_neg (by omega)]
  exact ⟨_, rfl⟩

theorem two_chars_total (buf : List Char) (pos : Nat) (c a b d : Char)
    (h : buf[pos + 1]? = some d) : ∃ r, two_chars buf pos c a b = some r := by
  unfold two_chars
  rw [h]
  split <;> exact ⟨_, rfl⟩

/-- Outside the character literal branch, one pass of the loop body reads
inside the buffer. -/
theorem tokenize_body_total (source : List Char) (hlen : source.length < INT_MAX)
    (c : Char) (st : LexState)
    (hc : (source ++ [NUL])[st.pos]? = some c) (hn : c ≠ NUL) (hq : c ≠ '\'') :
    ∃ st1, tokenize_body (source ++ [NUL]) c st = some st1 := by
  have hlt := buf_lt_of_ne_nul source st.pos c hc hn
  obtain ⟨d, hd⟩ := buf_some_of_le source (st.pos + 1) hlt
  unfold tokenize_body
  by_cases h0 : isspace c = true
  · rw [if_pos h0]; exact ⟨_, rfl⟩
  rw [if_neg h0]
  by_cases h1 : (c == '"') = true
  · rw [if_pos h1]; exact lex_string_total source hlen st hlt
  rw [if_neg h1, if_neg (by simpa using hq)]
  obtain ⟨b1, k1⟩ := two_chars_total _ st.pos c '/' '*' d hd
  rw [k1, Option.some_bind]
  cases b1 with
  | true =>
    rw [if_pos rfl]
    exact lex_block_comment_total source st
      (buf_lt_of_ne_nul source _ _ (two_chars_some _ _ _ _ _ k1).2 (by decide))
  | false =>
  rw [if_neg Bool.false_ne_true]
  obtain ⟨b2, k2⟩ := two_chars_total _ st.pos c '/' '/' d hd
  rw [k2, Option.some_bind]
  cases b2 with
  | true =>
    rw [if_pos rfl]
    exact lex_line_comment_total source st (Nat.le_of_lt hlt)
  | false =>
  rw [if_neg Bool.false_ne_true]
  by_cases h3 : isdigit c = true
  · rw [if_pos h3]; exact lex_integer_total source hlen st (Nat.le_of_lt hlt)
  rw [if_neg h3]
  by_cases h4 : (isalpha c || c == '_') = true
  · rw [if_pos h4]; exact lex_word_total source hlen st (Nat.le_of_lt hlt)
  rw [if_neg h4]
  obtain ⟨b3, k3⟩ := two_chars_total _ st.pos c '=' '=' d hd
  rw [k3, Option.some_bind]
  obtain ⟨b4, k4⟩ := two_chars_total _ st.pos c '!' '=' d hd
  obtain ⟨b5, k5⟩ := two_chars_total _ st.pos c '<' '=' d hd
  obtain ⟨b6, k6⟩ := two_chars_total _ st.pos c '>' '=' d hd
  obtain ⟨b7, k7⟩ := two_chars_total _ st.pos c '-' '>' d hd
  cases b3 with
  | true => rw [if_pos rfl]; exact ⟨_, rfl⟩
  | false =>
  rw [if_neg Bool.false_ne_true, k4, Option.some_bind]
  cases b4 with
  | true => rw [if_pos rfl]; exact ⟨_, rfl⟩
  | false =>
  rw [if_neg Bool.false_ne_true, k5, Option.some_bind]
  cases b5 with
  | true => rw [if_pos rfl]; exact ⟨_, rfl⟩
  | false =>
  rw [if_neg Bool.false_ne_true, k6, Option.some_bind]
  cases b6 with
  | true => rw [if_pos rfl]; exact ⟨_, rfl⟩
  | false =>
  rw [if_neg Bool.false_ne_true, k7, Option.some_bind]
  cases b7 with
  | true => rw [if_pos rfl]; exact ⟨_, rfl⟩
  | false =>
  rw [if_neg Bool.false_ne_true]
  exact ⟨_, rfl⟩

/-- On a text without an apostrophe the loop of `tokenize` never reads
outside the buffer. -/
theorem tokenize_loop_total (source : List Char) (hlen : source.length < INT_MAX)
    (hq : '\'' ∉ source) :
    ∀ (fuel : Nat) (st : LexState), st.pos ≤ source.length →
      tokenize_loop (source ++ [NUL]) fuel st ≠ Outcome.fault := by
  intro fuel
  induction fuel with
  | zero => intro st _ h; cases h
  | succ fuel ih =>
    intro st hp
    obtain ⟨c, hc⟩ := buf_some_of_le source st.pos hp
    by_cases hn : (c != NUL) = true
    · have hne : c ≠ NUL := by simpa using hn
      have hlt := buf_lt_of_ne_nul source st.pos c hc hne
      have hmem : c ∈ source := by
        rw [List.getElem?_append_left hlt] at hc
        exact List.getElem?_mem hc
      obtain ⟨st1, hb⟩ := tokenize_body_total source hlen c st hc hne (fun e => hq (e ▸ hmem))
      rw [tokenize_loop_step _ fuel st st1 c hc hn hb]
      exact ih st1 (tokenize_body_pos source c st st1 hc hne hb).2
    · have e : c = NUL := by simpa using hn
      subst e
      rw [tokenize_loop_nul _ fuel st hc]
      exact fun h => by cases h

/-- On a text shorter than `INT_MAX` characters without an apostrophe
`tokenize` returns a stream. -/
theorem tokenize_total (source : List Char) (hlen : source.length < INT_MAX)
    (hq : '\'' ∉ source) :
    ∃ st, tokenize source = Outcome.ok st := by
  have h1 := tokenize_loop_total source hlen hq (source.length + 1) lex_init (Nat.zero_le _)
  have h2 := tokenize_loop_fuel source (source.length + 1) lex_init (by simp [lex_init])
    (by simp [lex_init])
  unfold tokenize
  rw [source_buffer_eq source (Nat.le_of_lt hlen)]
  cases hl : tokenize_loop (source ++ [NUL]) (source.length + 1) lex_init with
  | ok st => exact ⟨_, rfl⟩
  | fault => exact absurd hl h1
  | outOfFuel => exact absurd hl h2

/-- C1 (the code fails it): on the one-character text `'`, and on the text `'\`, the
character-literal branch of `tokenize` moves the offset past the terminator and reads
outside the source buffer, so no token sequence is returned. -/
theorem tokenize_open_char_literal_faults :
    tokenize ['\''] = Outcome.fault ∧ tokenize ['\'', '\\'] = Outcome.fault := by
  decide

/-- C2: `parser_parse` yields a program node with a present function child that has a
present body exactly when the kinds of the stream begin with
`int NAME ( ) { return ; }` or `int NAME ( ) { return INTEGER ; }`, and a stream that
agrees with such a stream up to the closing brace yields the same tree. -/
theorem parse_body_present_iff (ts : TokenStream) (fn : Option String) :
    (((parse_tree ts fn).type? = some NODE_PROGRAM ∧ (parse_tree ts fn).left ≠ ASTNode.null ∧
        (parse_tree ts fn).left.left ≠ ASTNode.null) ↔
      ([TOK_INT, TOK_IDENTIFIER, TOK_LPAREN, TOK_RPAREN, TOK_LBRACE, TOK_RETURN,
          TOK_SEMICOLON, TOK_RBRACE] <+: kinds ts ∨
        [TOK_INT, TOK_IDENTIFIER, TOK_LPAREN, TOK_RPAREN, TOK_LBRACE, TOK_RETURN,
          TOK_INTEGER, TOK_SEMICOLON, TOK_RBRACE] <+: kinds ts)) ∧
    (∀ (ts2 : TokenStream) (fn2 : Option String),
      ([TOK_INT, TOK_IDENTIFIER, TOK_LPAREN, TOK_RPAREN, TOK_LBRACE, TOK_RETURN,
            TOK_SEMICOLON, TOK_RBRACE] <+: kinds ts ∧
          ts2.tokens.take 8 = ts.tokens.take 8) ∨
        ([TOK_INT, TOK_IDENTIFIER, TOK_LPAREN, TOK_RPAREN, TOK_LBRACE, TOK_RETURN,
            TOK_INTEGER, TOK_SEMICOLON, TOK_RBRACE] <+: kinds ts ∧
          ts2.tokens.take 9 = ts.tokens.take 9) →
      parse_tree ts2 fn2 = parse_tree ts fn) := by
  refine ⟨⟨fun h => parse_body_present_shape ts fn h.2.2, ?_⟩, ?_⟩
  · rintro (h | h)
    · obtain ⟨name, ret, -, -, e⟩ := parse_tree_simple ts fn h
      rw [e]
      simp [ASTNode.type?, ASTNode.left]
    · obtain ⟨name, ret, val, -, -, -, e⟩ := parse_tree_valued ts fn h
      rw [e]
      simp [ASTNode.type?, ASTNode.left]
  · rintro ts2 fn2 (⟨h, ht⟩ | ⟨h, ht⟩)
    · have h2 : [TOK_INT, TOK_IDENTIFIER, TOK_LPAREN, TOK_RPAREN, TOK_LBRACE, TOK_RETURN,
          TOK_SEMICOLON, TOK_RBRACE] <+: kinds ts2 := by
        rw [List.prefix_iff_eq_take] at h ⊢
        simp only [kinds, List.length_cons, List.length_nil, Nat.reduceAdd, ← List.map_take] at h ⊢
        rw [ht]
        exact h
      obtain ⟨name, ret, e1, e5, e⟩ := parse_tree_simple ts fn h
      obtain ⟨name2, ret2, f1, f5, f⟩ := parse_tree_simple ts2 fn2 h2
      have g1 : ts2.tokens[1]? = ts.tokens[1]? := by
        have := congrArg (fun l => l[1]?) ht
        simpa [List.getElem?_take] using this
      have g5 : ts2.tokens[5]? = ts.tokens[5]? := by
        have := congrArg (fun l => l[5]?) ht
        simpa [List.getElem?_take] using this
      rw [e1, f1] at g1
      rw [e5, f5] at g5
      injection g1 with g1
      injection g5 with g5
      rw [e, f, g1, g5]
    · have h2 : [TOK_INT, TOK_IDENTIFIER, TOK_LPAREN, TOK_RPAREN, TOK_LBRACE, TOK_RETURN,
          TOK_INTEGER, TOK_SEMICOLON, TOK_RBRACE] <+: kinds ts2 := by
        rw [List.prefix_iff_eq_take] at h ⊢
        simp only [kinds, List.length_cons, List.length_nil, Nat.reduceAdd, ← List.map_take] at h ⊢
        rw [ht]
        exact h
      obtain ⟨name, ret, val, e1, e5, e6, e⟩ := parse_tree_valued ts fn h
      obtain ⟨name2, ret2, val2, f1, f5, f6, f⟩ := parse_tree_valued ts2 fn2 h2
      have g1 : ts2.tokens[1]? = ts.tokens[1]? := by
        have := congrArg (fun l => l[1]?) ht
        simpa [List.getElem?_take] using this
      have g5 : ts2.tokens[5]? = ts.tokens[5]? := by
        have := congrArg (fun l => l[5]?) ht
        simpa [List.getElem?_take] using this
      have g6 : ts2.tokens[6]? = ts.tokens[6]? := by
        have := congrArg (fun l => l[6]?) ht
        simpa [List.getElem?_take] using this
      rw [e1, f1] at g1
      rw [e5, f5] at g5
      rw [e6, f6] at g6
      injection g1 with g1
      injection g5 with g5
      injection g6 with g6
      rw [e, f, g1, g5, g6]

/-- C3: for every token stream, `parser_parse` on a parser created over it returns a
present root of kind `NODE_PROGRAM`, whose left child is whatever `parse_function`
returned: a function that fails to parse is an absent left child of a present root. -/
theorem parser_parse_root_present (ts : TokenStream) (fn : Option String) :
    (parser_parse (some (parser_create ts fn))).1 ≠ ASTNode.null ∧
      (parser_parse (some (parser_create ts fn))).1.type? = some NODE_PROGRAM ∧
      (parser_parse (some (parser_create ts fn))).1.left =
        (parse_function (parser_create ts fn)).1 := by
  have h := parse_tree_eq ts fn
  unfold parse_tree at h
  rw [h]
  exact ⟨by simp, rfl, rfl⟩

/-- C4 (the code fails it): for the text `int main() { return 42; }` the tokens of the
function name and of the integer carry a null text, because `create_token` stores
`strcmp(value, value)`; the lines `ast_print` writes for them are `Function: (null)` and
`Integer: (null)`, not `Function: main` and `Integer: 42`. -/
theorem ast_print_example_null_text :
    ∃ t, parse_source "int main() \x7b return 42; \x7d".toList none = Outcome.ok t ∧
      t.left.token? = some { type := TOK_IDENTIFIER, value := CharPtr.null, line := 1, column := 5 } ∧
      t.left.left.left.token? =
        some { type := TOK_INTEGER, value := CharPtr.null, line := 1, column := 21 } ∧
      ast_print t 0 = "Program\n  Function: (null)\n    Return\n      Integer: (null)\n" ∧
      ast_print t 0 ≠ "Program\n  Function: main\n    Return\n      Integer: 42\n" :=
  ⟨_, rfl, rfl, rfl, by decide, by decide⟩

/-- C5: tokenizing `int main() { return 42; }` yields exactly ten tokens, of the kinds
`TOK_INT`, `TOK_IDENTIFIER`, `TOK_LPAREN`, `TOK_RPAREN`, `TOK_LBRACE`, `TOK_RETURN`,
`TOK_INTEGER`, `TOK_SEMICOLON`, `TOK_RBRACE`, `TOK_EOF`, in this order. -/
theorem tokenize_example_kinds :
    ∃ st, tokenize "int main() \x7b return 42; \x7d".toList = Outcome.ok st ∧
      st.stream.tokens.length = 10 ∧
      kinds st.stream = [TOK_INT, TOK_IDENTIFIER, TOK_LPAREN, TOK_RPAREN, TOK_LBRACE,
        TOK_RETURN, TOK_INTEGER, TOK_SEMICOLON, TOK_RBRACE, TOK_EOF] :=
  ⟨_, rfl, by decide, by decide⟩

/-- C6 (the code fails it): in the stream for `int main() { return 42; }` the identifier
token and the integer token store a null text, not the lexemes `main` and `42`. -/
theorem tokenize_example_text_null :
    ∃ st, tokenize "int main() \x7b return 42; \x7d".toList = Outcome.ok st ∧
      st.stream.tokens[1]? =
        some { type := TOK_IDENTIFIER, value := CharPtr.null, line := 1, column := 5 } ∧
      st.stream.tokens[6]? =
        some { type := TOK_INTEGER, value := CharPtr.null, line := 1, column := 21 } ∧
      substr "int main() \x7b return 42; \x7d".toList 4 4 = "main".toList ∧
      substr "int main() \x7b return 42; \x7d".toList 20 2 = "42".toList :=
  ⟨_, rfl, by decide, by decide, by decide, by decide⟩

/-- C7 (the code fails it): for `int main() { return 42; }` the texts of the tokens
concatenate to the empty text, while the text without its whitespace is
`intmain(){return42;}`. -/
theorem tokenize_example_lexemes_empty :
    ∃ st, tokenize "int main() \x7b return 42; \x7d".toList = Outcome.ok st ∧
      lexemes st.stream = [] ∧
      "int main() \x7b return 42; \x7d".toList.filter (fun c => !isspace c) =
        "intmain()\x7breturn42;\x7d".toList :=
  ⟨_, rfl, by decide, by decide⟩

/-- C8: when the kinds of the stream begin with `int NAME ( )` and the fifth token is
absent or is not `{`, the root is a program node whose function child is a
`NODE_FUNCTION_DEF` node carrying the identifier token, with an absent body. -/
theorem parse_missing_lbrace (ts : TokenStream) (fn : Option String)
    (h : [TOK_INT, TOK_IDENTIFIER, TOK_LPAREN, TOK_RPAREN] <+: kinds ts)
    (h4 : (kinds ts)[4]? ≠ some TOK_LBRACE) :
    ∃ name, ts.tokens[1]? = some name ∧ name.type = TOK_IDENTIFIER ∧
      (parse_tree ts fn).type? = some NODE_PROGRAM ∧
      (parse_tree ts fn).left =
        ASTNode.node NODE_FUNCTION_DEF name ASTNode.null ASTNode.null := by
  obtain ⟨l, cap, cur⟩ := ts
  simp only [kinds] at h h4
  rcases l with _ | ⟨t0, _ | ⟨t1, _ | ⟨t2, _ | ⟨t3, l⟩⟩⟩⟩ <;>
    simp [List.cons_prefix_cons] at h
  obtain ⟨h0, h1, h2, h3⟩ := h
  refine ⟨t1, rfl, h1.symm, ?_⟩
  rw [parse_tree_eq]
  refine ⟨rfl, ?_⟩
  simp only [ASTNode.left]
  cases l with
  | nil =>
    simp [parse_function, parse_block, consume_eq, advance_eq, current_token_eq, parser_create,
      create_node, set_left, ← h0, ← h1, ← h2, ← h3]
  | cons t4 l =>
    have h4' : ¬ t4.type = TOK_LBRACE := by simpa using h4
    simp [parse_function, parse_block, consume_eq, advance_eq, current_token_eq, parser_create,
      create_node, set_left, ← h0, ← h1, ← h2, ← h3, h4']

/-- C8 at the text `int f() return 1; }`. -/
theorem parse_missing_lbrace_witness :
    ∃ st, tokenize "int f() return 1; \x7d".toList = Outcome.ok st ∧
      [TOK_INT, TOK_IDENTIFIER, TOK_LPAREN, TOK_RPAREN] <+: kinds st.stream ∧
      (kinds st.stream)[4]? ≠ some TOK_LBRACE ∧
      ∃ name, st.stream.tokens[1]? = some name ∧ name.type = TOK_IDENTIFIER ∧
        (parse_tree st.stream none).type? = some NODE_PROGRAM ∧
        (parse_tree st.stream none).left =
          ASTNode.node NODE_FUNCTION_DEF name ASTNode.null ASTNode.null :=
  ⟨_, rfl, by decide, by decide, parse_missing_lbrace _ none (by decide) (by decide)⟩

/-- C9: the return value is optional: when the kinds of the stream begin with
`int NAME ( ) { return ; }`, the function child is present and its body is a
`NODE_RETURN_STMT` node carrying the `return` token, with an absent value child. -/
theorem parse_return_without_value (ts : TokenStream) (fn : Option String)
    (h : [TOK_INT, TOK_IDENTIFIER, TOK_LPAREN, TOK_RPAREN, TOK_LBRACE, TOK_RETURN,
      TOK_SEMICOLON, TOK_RBRACE] <+: kinds ts) :
    ∃ name ret, ts.tokens[1]? = some name ∧ ts.tokens[5]? = some ret ∧
      (parse_tree ts fn).left =
        ASTNode.node NODE_FUNCTION_DEF name
          (ASTNode.node NODE_RETURN_STMT ret ASTNode.null ASTNode.null) ASTNode.null := by
  obtain ⟨name, ret, h1, h5, e⟩ := parse_tree_simple ts fn h
  exact ⟨name, ret, h1, h5, by rw [e]; rfl⟩

/-- C9 at the text `int f() { return; }`. -/
theorem parse_return_without_value_witness :
    ∃ st, tokenize "int f() \x7b return; \x7d".toList = Outcome.ok st ∧
      [TOK_INT, TOK_IDENTIFIER, TOK_LPAREN, TOK_RPAREN, TOK_LBRACE, TOK_RETURN,
        TOK_SEMICOLON, TOK_RBRACE] <+: kinds st.stream ∧
      ∃ name ret, st.stream.tokens[1]? = some name ∧ st.stream.tokens[5]? = some ret ∧
        (parse_tree st.stream none).left =
          ASTNode.node NODE_FUNCTION_DEF name
            (ASTNode.node NODE_RETURN_STMT ret ASTNode.null ASTNode.null) ASTNode.null :=
  ⟨_, rfl, by decide, parse_return_without_value _ none (by decide)⟩

/-- C12 (the code departs from it): for the text `"a`, newline, `b"`, a string literal
that spans two lines, the `TOK_STRING` token reports line 2 and column -2, while its first
character is at line 1, column 1. -/
theorem tokenize_multiline_string_position :
    ∃ st tok, tokenize "\"a\nb\"".toList = Outcome.ok st ∧ st.stream.tokens[0]? = some tok ∧
      tok.type = TOK_STRING ∧ tok.line = 2 ∧ tok.column = -2 ∧
      line_at "\"a\nb\"".toList 0 = 1 ∧ column_at "\"a\nb\"".toList 0 = 1 :=
  ⟨_, _, rfl, rfl, rfl, rfl, rfl, rfl, rfl⟩

/-- C13 (the code departs from it): for the text made of an apostrophe, a newline, an
apostrophe and `x`, the identifier after the balanced character literal reports line 1,
column 4, while its first character is at line 2, column 2: the character literal branch
does not count the newline. -/
theorem tokenize_newline_in_char_literal :
    ∃ st tok, tokenize "'\n'x".toList = Outcome.ok st ∧
      kinds st.stream = [TOK_CHAR, TOK_IDENTIFIER, TOK_EOF] ∧
      st.stream.tokens[1]? = some tok ∧ tok.line = 1 ∧ tok.column = 4 ∧
      line_at "'\n'x".toList 3 = 2 ∧ column_at "'\n'x".toList 3 = 2 :=
  ⟨_, _, rfl, rfl, rfl, rfl, rfl, rfl, rfl⟩

/-- C14: `token_stream_peek` returns the token at the cursor when the cursor is below
the count and no token otherwise; `token_stream_next` returns what peek returns and moves
the cursor by one when it is below the count, and leaves it where it is otherwise; a
cursor that is at most the count stays so; and on the stream `tokenize` returns, whose
cursor is 0, the first `count` calls of next return the tokens in order and every
later call returns no token. -/
theorem token_stream_cursor (s : TokenStream) :
    token_stream_peek s = (if s.current < s.count then s.tokens[s.current]? else none) ∧
      (token_stream_next s).1 = token_stream_peek s ∧
      (token_stream_next s).2 =
        { s with current := if s.current < s.count then s.current + 1 else s.current } ∧
      (s.current < s.count → ∃ t, token_stream_peek s = some t) ∧
      (s.current ≤ s.count → (token_stream_next s).2.current ≤ (token_stream_next s).2.count) ∧
      (∀ source st, tokenize source = Outcome.ok st →
        st.stream.current ≤ st.stream.count ∧
        ∀ j, (next_calls (st.stream.count + j) st.stream).1 =
          st.stream.tokens.map some ++ List.replicate j none) := by
  refine ⟨?_, ?_, token_stream_next_snd s, ?_, ?_, ?_⟩
  · rw [token_stream_peek_eq]
    split
    · rfl
    · rename_i h
      exact List.getElem?_eq_none (by simpa [TokenStream.count] using h)
  · rw [token_stream_next_fst, token_stream_peek_eq]
  · intro h
    rw [token_stream_peek_eq, List.getElem?_eq_getElem h]
    exact ⟨_, rfl⟩
  · intro h
    rw [token_stream_next_snd]
    simp only [TokenStream.count] at h ⊢
    split <;> omega
  · intro source st h
    have hc := tokenize_stream_current source st h
    have hle : st.stream.current ≤ st.stream.count := by rw [hc]; exact Nat.zero_le _
    refine ⟨hle, fun j => ?_⟩
    rw [(next_calls_spec _ _ hle).1, hc]
    simp only [Nat.zero_add]
    exact range_map_getElem? _ j

/-- C15 (fails on the code as stated): for the text `int f() { return 1` one parse writes two
diagnostics. -/
theorem parse_two_diagnostics_example :
    ∃ st, tokenize "int f() \x7b return 1".toList = Outcome.ok st ∧
      parse_stderr st.stream none =
        ["Error: Expected ';' after return statement\n",
         "Error: Expected '\x7d' to close block\n"] ∧
      ¬ (parse_stderr st.stream none).length ≤ 1 :=
  ⟨_, rfl, by decide, by decide⟩

/-- C15, amended: for every token stream, one call of `parser_parse` writes no
diagnostic, one diagnostic, or the two diagnostics `Expected ';' after return statement`
and `Expected '}' to close block` in this order; so it writes at most two, and a second
one comes only from the check for `}` that `parse_block` makes after `parse_return_stmt`
has reported. -/
theorem parse_at_most_two_diagnostics (ts : TokenStream) (fn : Option String) :
    parse_stderr ts fn ∈
        [[], ["Error: Expected function name\n"], ["Error: Expected '(' after function name\n"],
         ["Error: Expected ')' after parameters\n"],
         ["Error: Expected ';' after return statement\n"],
         ["Error: Expected '\x7d' to close block\n"],
         ["Error: Expected ';' after return statement\n",
          "Error: Expected '\x7d' to close block\n"]] ∧
      (parse_stderr ts fn).length ≤ 2 := by
  have h := parse_stderr_cases ts fn
  refine ⟨h, ?_⟩
  simp only [List.mem_cons, List.mem_singleton, List.not_mem_nil, or_false] at h
  rcases h with h | h | h | h | h | h | h <;> rw [h] <;> decide

/-- C16 (fails on the code as stated): for the text `int f() return 1; }` the stream begins
with `int`, the parse yields no body, and no diagnostic is written. -/
theorem parse_missing_lbrace_silent :
    ∃ st, tokenize "int f() return 1; \x7d".toList = Outcome.ok st ∧
      (kinds st.stream)[0]? = some TOK_INT ∧
      (parse_tree st.stream none).left.left = ASTNode.null ∧
      parse_stderr st.stream none = [] :=
  ⟨_, rfl, by decide, by decide, by decide⟩

/-- C16, amended: for every token stream whose first token is `TOK_INT` and whose parse
yields no function node with a present body, `parser_parse` writes a diagnostic, except
when the kinds begin `int NAME ( )` and the next token is absent or not `{`, or the token
after the `{` is `}`: the checks for `{` and for the `return` keyword, the first of their
productions, fail without a report. -/
theorem parse_failure_reported_iff (ts : TokenStream) (fn : Option String)
    (h0 : (kinds ts)[0]? = some TOK_INT)
    (hb : (parse_tree ts fn).left.left = ASTNode.null) :
    parse_stderr ts fn ≠ [] ↔
      ¬ ([TOK_INT, TOK_IDENTIFIER, TOK_LPAREN, TOK_RPAREN] <+: kinds ts ∧
          ((kinds ts)[4]? ≠ some TOK_LBRACE ∨ (kinds ts)[5]? = some TOK_RBRACE)) := by
  constructor
  · intro hne hc
    exact hne (parse_silent_of_shape ts fn hc.1 hc.2)
  · intro hc he
    exact hc (parse_silent_shape ts fn h0 hb he)

/-- C16, amended, at the text `int f( { return 1; }`: the `)` is missing and is reported. -/
theorem parse_failure_reported_iff_witness :
    ∃ st, tokenize "int f( \x7b return 1; \x7d".toList = Outcome.ok st ∧
      (kinds st.stream)[0]? = some TOK_INT ∧
      (parse_tree st.stream none).left.left = ASTNode.null ∧
      (parse_stderr st.stream none ≠ [] ↔
        ¬ ([TOK_INT, TOK_IDENTIFIER, TOK_LPAREN, TOK_RPAREN] <+: kinds st.stream ∧
            ((kinds st.stream)[4]? ≠ some TOK_LBRACE ∨
              (kinds st.stream)[5]? = some TOK_RBRACE))) :=
  ⟨_, rfl, by decide, by decide, parse_failure_reported_iff _ none (by decide) (by decide)⟩

/-- C17 (the code departs from it): for the text `int main( { return 0; }` the parse
yields no function node and reports the missing `)`, yet `compile_file` and
`compile_file_quiet` return status 0; and for every text that `tokenize` accepts both
return status 0, the root they test being never null. -/
theorem compile_file_status_ignores_function :
    (∃ st, tokenize "int main( \x7b return 0; \x7d".toList = Outcome.ok st ∧
      (parse_tree st.stream (some "a.c")).left = ASTNode.null ∧
      compile_file "a.c" (some "int main( \x7b return 0; \x7d".toList) =
        Outcome.ok { status := 0, stdout := "Compiling: a.c\nAST for a.c:\nProgram\n\n",
                     stderr := ["Error: Expected ')' after parameters\n"] } ∧
      compile_file_quiet "a.c" (some "int main( \x7b return 0; \x7d".toList) =
        Outcome.ok { status := 0, stdout := "",
                     stderr := ["Error: Expected ')' after parameters\n"] }) ∧
    (∀ filename source st, tokenize source = Outcome.ok st →
      (∃ r, compile_file filename (some source) = Outcome.ok r ∧ r.status = 0) ∧
      (∃ r, compile_file_quiet filename (some source) = Outcome.ok r ∧ r.status = 0)) :=
  ⟨⟨_, rfl, by decide, by decide, by decide⟩, compile_status⟩

/-- C18 (fails on the code as stated): a tree of one identifier node whose token text
is `a`, newline, `b` is printed as the two lines `Identifier: a` and `b`: two lines for
one node. -/
theorem ast_print_newline_in_payload :
    preorder (ASTNode.node NODE_IDENTIFIER
        { type := TOK_IDENTIFIER, value := CharPtr.str ['a', '\n', 'b'], line := 1, column := 1 }
        ASTNode.null ASTNode.null) 0 =
      [(0, NODE_IDENTIFIER,
        { type := TOK_IDENTIFIER, value := CharPtr.str ['a', '\n', 'b'], line := 1,
          column := 1 })] ∧
    ast_print (ASTNode.node NODE_IDENTIFIER
        { type := TOK_IDENTIFIER, value := CharPtr.str ['a', '\n', 'b'], line := 1, column := 1 }
        ASTNode.null ASTNode.null) 0 = "Identifier: a\nb\n" ∧
    newline_count (ast_print (ASTNode.node NODE_IDENTIFIER
        { type := TOK_IDENTIFIER, value := CharPtr.str ['a', '\n', 'b'], line := 1, column := 1 }
        ASTNode.null ASTNode.null) 0) = 2 := by
  decide

/-- C18, amended: for every tree `t` and every indent `k` such that no node of `t` is
printed at an indent above `INT_MAX`, `ast_print t k` writes one record per node of `t`,
in pre-order with the left subtree before the right one; the record of a node at depth
`d` is `2 * (k + d)` spaces, the label of its kind (which does not begin with a space),
its payload, printed as it is, and a newline; so the text has exactly one line per node
when no payload holds a newline; and an absent node writes nothing. -/
theorem ast_print_one_record_per_node (t : ASTNode) (k : Nat)
    (hk : ∀ n ∈ preorder t 0, k + n.1 ≤ INT_MAX) :
    ast_print t (k : Int) = concat_text ((preorder t 0).map (node_record k)) ∧
      (∀ n ∈ preorder t 0, node_record k n =
        String.mk (List.replicate (2 * (k + n.1)) ' ') ++ kind_label n.2.1 ++
          node_payload n.2.1 n.2.2 ++ "\n") ∧
      (∀ ty, (kind_label ty).data.head? ≠ some ' ') ∧
      ((∀ n ∈ preorder t 0, newline_count (node_payload n.2.1 n.2.2) = 0) →
        newline_count (ast_print t (k : Int)) = (preorder t 0).length) ∧
      ast_print ASTNode.null (k : Int) = "" := by
  have h := ast_print_records t k 0 hk
  rw [Nat.add_zero] at h
  refine ⟨h, fun _ _ => rfl, kind_label_head, ?_, rfl⟩
  intro hp
  rw [h]
  exact newline_count_records k _ hp

/-- C18, amended, at the tree of `int main() { return 42; }` printed with indent 1: four
nodes, four lines. -/
theorem ast_print_one_record_per_node_witness :
    (∀ n ∈ preorder sample_tree 0, 1 + n.1 ≤ INT_MAX) ∧
      (∀ n ∈ preorder sample_tree 0, newline_count (node_payload n.2.1 n.2.2) = 0) ∧
      ast_print sample_tree ((1 : Nat) : Int) =
        concat_text ((preorder sample_tree 0).map (node_record 1)) ∧
      newline_count (ast_print sample_tree ((1 : Nat) : Int)) = (preorder sample_tree 0).length ∧
      (preorder sample_tree 0).length = 4 :=
  ⟨by decide, by decide, (ast_print_one_record_per_node sample_tree 1 (by decide)).1,
    (ast_print_one_record_per_node sample_tree 1 (by decide)).2.2.2.1 (by decide), by decide⟩

/-- C21: inside parsing the cursor stays within the sequence.  `advance` adds one to the
position when it is below the token count and changes nothing when it equals the count;
at the count `current_token` returns no token and `match` and `consume` return false
without changing the parser; after a successful `consume` the token at
`current_pos - 1`, which `parse_return_stmt` reads, is in the stream; every step of the parser (`advance`, `consume`,
`parse_integer`, `parse_return_stmt`, `parse_block`, `parse_function`, `parse_program`)
keeps the stream, does not decrease the position and keeps it at most the count; and after
`parser_parse` on a new parser, which starts at position 0, the position is at most the
count. -/
theorem parser_cursor_within (p : Parser) :
    (p.current_pos < p.tokens.count →
        advance p = { p with current_pos := p.current_pos + 1 }) ∧
      (p.current_pos = p.tokens.count →
        advance p = p ∧ current_token p = none ∧
          ∀ ty, match_token p ty = false ∧ consume p ty = (false, p)) ∧
      (∀ ty, (consume p ty).1 = true →
        ∃ t, (consume p ty).2.tokens.tokens[(consume p ty).2.current_pos - 1]? = some t ∧
          t.type = ty) ∧
      (CursorStep p (advance p) ∧ (∀ ty, CursorStep p (consume p ty).2) ∧
        CursorStep p (parse_integer p).2 ∧ CursorStep p (parse_return_stmt p).2 ∧
        CursorStep p (parse_block p).2 ∧ CursorStep p (parse_function p).2 ∧
        CursorStep p (parse_program p).2) ∧
      (∀ ts fn, (parser_create ts fn).current_pos = 0 ∧
        ∃ q, (parser_parse (some (parser_create ts fn))).2 = some q ∧ q.tokens = ts ∧
          q.current_pos ≤ ts.count) := by
  refine ⟨?_, ?_, consume_passed p, ⟨cursorStep_advance p, cursorStep_consume p, cursorStep_parse_integer p,
    cursorStep_parse_return_stmt p, cursorStep_parse_block p, cursorStep_parse_function p,
    cursorStep_parse_program p⟩, ?_⟩
  · intro h
    unfold advance
    rw [if_pos h]
  · intro h
    have ha : advance p = p := by
      unfold advance
      rw [if_neg (by omega)]
    have hc : current_token p = none := by
      unfold current_token
      rw [if_pos (by omega)]
    refine ⟨ha, hc, fun ty => ?_⟩
    have hm : match_token p ty = false := by
      unfold match_token
      rw [hc]
    refine ⟨hm, ?_⟩
    unfold consume
    rw [hm]
    rfl
  · intro ts fn
    refine ⟨rfl, _, rfl, ?_, ?_⟩
    · exact (cursorStep_parse_program (parser_create ts fn)).1
    · have h := (cursorStep_parse_program (parser_create ts fn)).2.2 (Nat.zero_le _)
      rw [(cursorStep_parse_program (parser_create ts fn)).1] at h
      exact h

/-- C23: every tree `parser_parse` returns is a chain.  The root is `NODE_PROGRAM` with
an absent right child; its left child is absent or a `NODE_FUNCTION_DEF` node with a
`TOK_IDENTIFIER` token and an absent right child; that node's left child is absent or a
`NODE_RETURN_STMT` node with a `TOK_RETURN` token and an absent right child; that node's
left child is absent or a `NODE_INTEGER_LITERAL` leaf with a `TOK_INTEGER` token.  So the
tree has at most four nodes, none of kind `NODE_BINARY_OP`, `NODE_IDENTIFIER` or
`NODE_VARIABLE_DECL`. -/
theorem parse_tree_chain (ts : TokenStream) (fn : Option String) :
    (∃ f, parse_tree ts fn = ASTNode.node NODE_PROGRAM dummy_token f ASTNode.null ∧
      (f = ASTNode.null ∨ ∃ name b, name.type = TOK_IDENTIFIER ∧
        f = ASTNode.node NODE_FUNCTION_DEF name b ASTNode.null ∧
        (b = ASTNode.null ∨ ∃ ret v, ret.type = TOK_RETURN ∧
          b = ASTNode.node NODE_RETURN_STMT ret v ASTNode.null ∧
          (v = ASTNode.null ∨ ∃ i, i.type = TOK_INTEGER ∧
            v = ASTNode.node NODE_INTEGER_LITERAL i ASTNode.null ASTNode.null)))) ∧
      (preorder (parse_tree ts fn) 0).length ≤ 4 ∧
      ∀ n ∈ preorder (parse_tree ts fn) 0,
        n.2.1 ≠ NODE_BINARY_OP ∧ n.2.1 ≠ NODE_IDENTIFIER ∧ n.2.1 ≠ NODE_VARIABLE_DECL := by
  rw [parse_tree_eq]
  rcases parse_function_cases (parser_create ts fn) with h |
    ⟨t0, t1, t2, t3, -, -, -, h1, -, -, -, -, h⟩
  · rw [h]
    refine ⟨⟨_, rfl, Or.inl rfl⟩, by simp [preorder], ?_⟩
    intro n hn
    simp [preorder] at hn
    subst hn
    simp
  · rw [h]
    rcases parse_block_shape { parser_create ts fn with
        current_pos := (parser_create ts fn).current_pos + 4 } with hb | ⟨ret, v, hr, hb, hv⟩
    · rw [hb]
      refine ⟨⟨_, rfl, Or.inr ⟨t1, _, h1, rfl, Or.inl rfl⟩⟩, by simp [preorder], ?_⟩
      intro n hn
      simp [preorder] at hn
      rcases hn with rfl | rfl <;> simp
    · rw [hb]
      rcases hv with rfl | ⟨i, hi, rfl⟩
      · refine ⟨⟨_, rfl, Or.inr ⟨t1, _, h1, rfl, Or.inr ⟨ret, _, hr, rfl, Or.inl rfl⟩⟩⟩,
          by simp [preorder], ?_⟩
        intro n hn
        simp [preorder] at hn
        rcases hn with rfl | rfl | rfl <;> simp
      · refine ⟨⟨_, rfl, Or.inr ⟨t1, _, h1, rfl,
          Or.inr ⟨ret, _, hr, rfl, Or.inr ⟨i, hi, rfl⟩⟩⟩⟩, by simp [preorder], ?_⟩
        intro n hn
        simp [preorder] at hn
        rcases hn with rfl | rfl | rfl | rfl <;> simp

/-- C24 (the code departs from it): on the text `c = '`, whose terminator is at index 5,
and on the text `c = '\`, the character literal branch moves the offset past the
terminator and the next read is outside the buffer, so `tokenize` returns nothing; on
every text shorter than `INT_MAX` characters without an apostrophe (an unterminated
string literal or block comment included) no read is outside the buffer and `tokenize` returns
a stream. -/
theorem tokenize_reads_past_terminator :
    ("c = '".toList ++ [NUL])[5]? = some NUL ∧ ("c = '".toList ++ [NUL])[6]? = none ∧
      tokenize "c = '".toList = Outcome.fault ∧
      tokenize "c = '\\".toList = Outcome.fault ∧
      (∃ st, tokenize "\"open".toList = Outcome.ok st) ∧
      (∃ st, tokenize "/* open *".toList = Outcome.ok st) ∧
      ∀ source, source.length < INT_MAX → '\'' ∉ source →
        ∃ st, tokenize source = Outcome.ok st :=
  ⟨by decide, by decide, by decide, by decide, tokenize_total _ (by decide) (by decide),
    tokenize_total _ (by decide) (by decide), tokenize_total⟩

end ECLC
